import Mathlib

/-!
Verification development for the identifier cache of an ember-data fork
(the `IdentifierCache` in `packages/store`, file `identifiers/cache.ts`).

Shallow embedding conventions:

* The development build is modelled (`DEBUG = true` in the source): all
  debug-time assertions, the immutable wrapper with mutable backing record,
  and the warn path are always on, matching the spec's design note that the
  invariant checks are always-on correctness guarantees.
* A JavaScript value that may be absent, `undefined`, `null`, or a string is
  modelled by `JVal` (absence and `undefined` are conflated: every read in
  the source observes them identically, via combined `'k' in o && o.k`
  style checks or destructuring that yields `undefined`).
* Identity tokens (`StableRecordIdentifier` objects) are modelled by a
  numeric allocation id (`Nat`).  Object identity is equality of those ids;
  the mutable backing record behind the frozen debug wrapper is the entry of
  the `fields` table, which the cache alone mutates.
* A JavaScript object used as a string-keyed table is `JMap`:
  an association list of `String × Option Nat`; a stored `none` models a
  property explicitly assigned `undefined` (reachable through the merge
  path), which is distinguishable from an absent property only by the `in`
  operator.
* Exceptions are modelled by `RRes`; a thrown exception propagates while the
  mutations already performed persist, so every operation returns either
  result and the (possibly partially updated) state.
* Host-observable callbacks (the update, forget and merge hooks and the
  duplicate-id warning) are recorded in an event log, newest first.
-/

/-- A JavaScript value as far as the cache inspects one: absent/`undefined`,
`null`, or a string. -/
inductive JVal where
  | undef : JVal
  | nullv : JVal
  | str : String → JVal
deriving DecidableEq, Repr

/-- Modelled from the spec: `coerceId` (imported by the cache from
`../system/coerce-id`, not under `src/`) coerces the caller-supplied key;
`null`, `undefined` and the empty string coerce to "no key", any other
string is returned unchanged. -/
def coerceId : JVal → Option String
  | .undef => none
  | .nullv => none
  | .str s => if s = "" then none else some s

/-- Truthiness of a `JVal` combined with a presence check, as in the
source's `'k' in data && data.k` pattern: only a non-empty string passes. -/
def truthyJ : JVal → Bool
  | .str s => s ≠ ""
  | _ => false

/-- Modelled from the spec: `isNonEmptyString` (imported from
`../utils/is-non-empty-string`, not under `src/`): the value is a string and
non-empty. Combined with the presence check as used at the call sites. -/
def jvalIsNonEmptyString : JVal → Bool := truthyJ

/-- JavaScript template-literal stringification of a `JVal`, used when the
default generation method interpolates `type` and `id`. -/
def jstr : JVal → String
  | .undef => "undefined"
  | .nullv => "null"
  | .str s => s

/-- Modelled from the spec: `normalizeModelName` (imported from
`../system/normalize-model-name`, not under `src/`).  The spec never
mentions any normalization of the resource type, so it is the identity. -/
def normalizeModelName (s : String) : String := s

/-- Raw resource data as the cache inspects it: the `type`, `id` and `lid`
members of the caller-supplied object (opaque attribute payloads ignored). -/
structure ResourceData where
  type : JVal
  id : JVal
  lid : JVal
deriving DecidableEq, Repr

/-- The mutable backing record of one identity token, together with the
client-originated flag captured at creation and the stable-identifier mark
(`markStableIdentifier` / `unmarkStableIdentifier`, modelled from the spec:
forget marks the token object as no longer a live stable identity). -/
structure TokenFields where
  lid : String
  id : Option String
  type : String
  clientOriginated : Bool
  marked : Bool
deriving DecidableEq, Repr

/-- A JavaScript object used as a string-keyed lookup table whose values are
tokens; a stored `none` is a property holding `undefined`. -/
abbrev JMap := List (String × Option Nat)

/-- Property read `m[k]`: an absent property and one holding `undefined`
both read as `undefined`. -/
def jmGet : JMap → String → Option Nat
  | [], _ => none
  | p :: m, k => if p.1 = k then p.2 else jmGet m k

/-- The `in` operator: is the property present at all. -/
def jmHasKey : JMap → String → Bool
  | [], _ => false
  | p :: m, k => p.1 = k || jmHasKey m k

/-- Property deletion `delete m[k]`. -/
def jmDel : JMap → String → JMap
  | [], _ => []
  | p :: m, k => if p.1 = k then jmDel m k else p :: jmDel m k

/-- Property assignment `m[k] = v` (with `v = none` for assigning
`undefined`). -/
def jmSet (m : JMap) (k : String) (v : Option Nat) : JMap :=
  jmDel m k ++ [(k, v)]

/-- The per-type `KeyOptions` record: primary `lid` table, secondary `id`
table, and the insertion-ordered collection of all identifiers of the
type. -/
structure KeyOptions where
  lid : JMap
  id : JMap
  allIdentifiers : List Nat
deriving DecidableEq, Repr

def emptyKeyOptions : KeyOptions := ⟨[], [], []⟩

/-- The `TypeMap`: resource type → `KeyOptions`, created lazily. -/
abbrev TMap := List (String × KeyOptions)

def tmFind : TMap → String → Option KeyOptions
  | [], _ => none
  | q :: m, ty => if q.1 = ty then some q.2 else tmFind m ty

/-- In-place mutation of the `KeyOptions` object stored for `ty` (a no-op if
the type has never been seen, which never happens at the call sites). -/
def tmMod (m : TMap) (ty : String) (f : KeyOptions → KeyOptions) : TMap :=
  m.map (fun p => if p.1 = ty then (p.1, f p.2) else p)

/-- Host-observable events: hook invocations and the duplicate-id
warning. -/
inductive CacheEvent where
  | updateHook (t : Nat)
  | forgetHook (t : Nat)
  | mergeHook (a : Nat) (b : Nat)
  | warnIdChange (t : Nat)
deriving DecidableEq, Repr

/-- The whole mutable state owned by one `IdentifierCache` instance, plus
the allocator for token identities and the counter backing the modelled
`uuidv4`. -/
structure CacheState where
  lids : JMap
  types : TMap
  fields : List (Nat × TokenFields)
  nextTid : Nat
  uuidCtr : Nat
  events : List CacheEvent
deriving DecidableEq, Repr

def initCache : CacheState := ⟨[], [], [], 0, 0, []⟩

/-- Total read of a token's backing record (junk default for token ids that
were never allocated, which no reachable execution produces). -/
def fLook : List (Nat × TokenFields) → Nat → TokenFields
  | [], _ => ⟨"", none, "", false, false⟩
  | p :: m, t => if p.1 = t then p.2 else fLook m t

def tokF (s : CacheState) (t : Nat) : TokenFields :=
  fLook s.fields t

/-- Is there a backing record for token `t`. -/
def fHas : List (Nat × TokenFields) → Nat → Bool
  | [], _ => false
  | p :: m, t => p.1 = t || fHas m t

def fieldsHas (s : CacheState) (t : Nat) : Bool :=
  fHas s.fields t

/-- The `KeyOptions` for `ty`, total (empty default). -/
def koOf (s : CacheState) (ty : String) : KeyOptions :=
  match tmFind s.types ty with
  | some ko => ko
  | none => emptyKeyOptions

/-- A caller-supplied resource reference: either raw resource data or a
token object previously handed out by a cache (the spec's design note asks
for exactly this tagged union in place of the duck-typed check). -/
inductive ResourceRef where
  | bare (d : ResourceData)
  | token (t : Nat)
deriving DecidableEq, Repr

/-- Result of an operation: normal return or a thrown exception. -/
inductive RRes (α : Type) where
  | ok (a : α)
  | err (msg : String)
deriving DecidableEq, Repr

/-- The configuration captured by the cache at construction: the generation
method (threading the counter that backs the modelled `uuidv4`) and the
merge method installed by `__configureMerge`.  The update/forget hooks are
observationally no-ops for the cache and are modelled by the event log. -/
structure CacheConfig where
  generate : ResourceData → Nat → String × Nat
  merge : Nat → Nat → ResourceData → Option Nat

/-- `defaultEmptyCallback` in the `_merge` slot: it returns `undefined`. -/
def defaultMergeMethod : Nat → Nat → ResourceData → Option Nat :=
  fun _ _ _ => none

/-- The default generation method: pass a non-empty `lid` through; else
derive a deterministic lid from `(type, id)` when the id coerces to a
non-empty string; else mint a fresh random key (`uuidv4`, not under `src/`,
modelled from the spec as a fresh-key supply backed by a counter). -/
def defaultGenerationMethod (data : ResourceData) (ctr : Nat) : String × Nat :=
  if jvalIsNonEmptyString data.lid then
    (jstr data.lid, ctr)
  else if data.id ≠ .undef ∧ (coerceId data.id).isSome then
    ("@ember-data:lid-" ++ normalizeModelName (jstr data.type) ++ "-" ++ jstr data.id, ctr)
  else
    ("uuid-" ++ toString ctr, ctr + 1)

def defaultConfig : CacheConfig :=
  ⟨defaultGenerationMethod, defaultMergeMethod⟩

/-! State-update helpers (each mirrors one JavaScript mutation). -/

def setLids (s : CacheState) (k : String) (v : Option Nat) : CacheState :=
  { s with lids := jmSet s.lids k v }

def delLids (s : CacheState) (k : String) : CacheState :=
  { s with lids := jmDel s.lids k }

def modKo (s : CacheState) (ty : String) (f : KeyOptions → KeyOptions) : CacheState :=
  { s with types := tmMod s.types ty f }

def setFieldsF (s : CacheState) (t : Nat) (f : TokenFields → TokenFields) : CacheState :=
  { s with fields := s.fields.map (fun p => if p.1 = t then (p.1, f p.2) else p) }

def allocToken (s : CacheState) (f : TokenFields) : Nat × CacheState :=
  (s.nextTid, { s with fields := (s.nextTid, f) :: s.fields, nextTid := s.nextTid + 1 })

def setCtr (s : CacheState) (c : Nat) : CacheState :=
  { s with uuidCtr := c }

def logEv (s : CacheState) (e : CacheEvent) : CacheState :=
  { s with events := e :: s.events }

/-- `getTypeIndex`: fetch the `KeyOptions` for `type`, creating an empty one
on first reference. -/
def getTypeIndex (s : CacheState) (ty : String) : KeyOptions × CacheState :=
  match tmFind s.types ty with
  | some ko => (ko, s)
  | none => (emptyKeyOptions, { s with types := s.types ++ [(ty, emptyKeyOptions)] })

/-! ## The cache operations -/

/-- Error messages, verbatim from the source (quotes elided). -/
def belongsMsg : String := "The supplied identifier does not belong to this store instance"
def typeAssertMsg : String := "resource.type needs to be a string"
def lidChangeMsg : String := "You should not change the <lid> of a RecordIdentifier"
def typeChangeMsg : String := "You should not change the <type> of a RecordIdentifier"
def newLidNotUniqueMsg : String := "The lid generated for the new record is not unique as it matches an existing identifier"
def lidUpdateMsg : String := "The lid for a RecordIdentifier cannot be updated once it has been created"
def typeUpdateMsg : String := "The type for a RecordIdentifier cannot be updated once it has been set"
def keptUndefinedMsg : String := "TypeError: cannot read property lid of undefined"

/-- How an unmarked token object re-enters the resolution path: its `lid`,
`id` and `type` getters are read as plain resource data. -/
def dataOfToken (s : CacheState) (t : Nat) : ResourceData :=
  let f := tokF s t
  ⟨.str f.type, match f.id with | some k => .str k | none => .nullv, .str f.lid⟩

/-- Write of the secondary table entry `keyOptions.id[identifier.id] =
identifier` guarded by `identifier.id !== null` (the tail of the
`shouldGenerate` block of `_getRecordIdentifier`). -/
def writeIdEntry (s : CacheState) (ty : String) (t : Nat) : CacheState :=
  match (tokF s t).id with
  | some k => modKo s ty (fun ko => { ko with id := jmSet ko.id k (some t) })
  | none => s

/-- The tail of `_getRecordIdentifier` once the generation method has run:
mint a new identifier if the secondary lookup also missed and
`shouldGenerate` is set; `ident3` is the result of the secondary
`keyOptions.lid[newLid]` lookup (only performed when the caller supplied no
lid). -/
def mintOrFinish (ty : String) (id : Option String) (ident3 : Option Nat)
    (newLid : String) (shouldGenerate : Bool) (s : CacheState) :
    RRes (Option Nat) × CacheState :=
  if shouldGenerate then
    match ident3 with
    | some t => (.ok (some t), writeIdEntry s ty t)
    | none =>
      let (t, sA) := allocToken s ⟨newLid, id, ty, false, true⟩
      if jmHasKey sA.lids newLid then (.err typeChangeMsg, sA)
      else
        let sB := setLids sA newLid (some t)
        let sC := modKo sB ty (fun ko =>
          { ko with lid := jmSet ko.lid newLid (some t),
                    allIdentifiers := ko.allIdentifiers ++ [t] })
        (.ok (some t), writeIdEntry sC ty t)
  else (.ok ident3, s)

/-- The body of `_getRecordIdentifier` past the stable-token short circuit,
operating on the three data members of the supplied resource. -/
def resolveData (cfg : CacheConfig) (rd : ResourceData) (shouldGenerate : Bool)
    (s : CacheState) : RRes (Option Nat) × CacheState :=
  let lid := coerceId rd.lid
  let found : Option Nat := match lid with
    | some l => jmGet s.lids l
    | none => none
  match found with
  | some t => (.ok (some t), s)
  | none =>
    if shouldGenerate = false ∧ (truthyJ rd.type = false ∨ truthyJ rd.id = false) then
      (.ok none, s)
    else if jvalIsNonEmptyString rd.type = false then (.err typeAssertMsg, s)
    else
      let ty := normalizeModelName (jstr rd.type)
      let id := coerceId rd.id
      let (keyOptions, s1) := getTypeIndex s ty
      let ident1 : Option Nat := match lid with
        | some l => jmGet keyOptions.lid l
        | none => none
      let ident2 : Option Nat := match ident1 with
        | some t => some t
        | none => match id with
          | some k => jmGet keyOptions.id k
          | none => none
      match ident2 with
      | some t => (.ok (some t), s1)
      | none =>
        let gen := cfg.generate rd s1.uuidCtr
        let s2 := setCtr s1 gen.2
        match lid with
        | some l =>
          if gen.1 ≠ l then (.err lidChangeMsg, s2)
          else mintOrFinish ty id none gen.1 shouldGenerate s2
        | none =>
          mintOrFinish ty id (jmGet keyOptions.lid gen.1) gen.1 shouldGenerate s2

/-- `_getRecordIdentifier(resource, shouldGenerate)`: short-circuit on a
marked stable token (validating that it belongs to this cache), otherwise
resolve its data members. -/
def getRecordIdentifier (cfg : CacheConfig) (resource : ResourceRef)
    (shouldGenerate : Bool) (s : CacheState) : RRes (Option Nat) × CacheState :=
  match resource with
  | .token t =>
    if (tokF s t).marked then
      if jmGet s.lids (tokF s t).lid = some t then (.ok (some t), s)
      else (.err belongsMsg, s)
    else resolveData cfg (dataOfToken s t) shouldGenerate s
  | .bare d => resolveData cfg d shouldGenerate s

/-- `peekRecordIdentifier(resource)`. -/
def peekRecordIdentifier (cfg : CacheConfig) (resource : ResourceRef)
    (s : CacheState) : RRes (Option Nat) × CacheState :=
  getRecordIdentifier cfg resource false s

/-- `getOrCreateRecordIdentifier(resource)`. -/
def getOrCreateRecordIdentifier (cfg : CacheConfig) (resource : ResourceRef)
    (s : CacheState) : RRes (Option Nat) × CacheState :=
  getRecordIdentifier cfg resource true s

/-- `createIdentifierForNewRecord({ type, id? })`. -/
def createIdentifierForNewRecord (cfg : CacheConfig) (ty : String) (idv : JVal)
    (s : CacheState) : RRes Nat × CacheState :=
  let data : ResourceData := ⟨.str ty, idv, .undef⟩
  let gen := cfg.generate data s.uuidCtr
  let s0 := setCtr s gen.2
  let idField : Option String := if truthyJ idv then some (jstr idv) else none
  let (t, sA) := allocToken s0 ⟨gen.1, idField, ty, true, true⟩
  let (_, sB) := getTypeIndex sA ty
  if jmHasKey sB.lids gen.1 then (.err newLidNotUniqueMsg, sB)
  else
    let sC := setLids sB gen.1 (some t)
    let sD := modKo sC ty (fun ko =>
      { ko with lid := jmSet ko.lid gen.1 (some t),
                allIdentifiers := ko.allIdentifiers ++ [t] })
    (.ok t, sD)

/-- `array.indexOf(x)` (position of the first occurrence, if any). -/
def jsIndexOf : List Nat → Nat → Option Nat
  | [], _ => none
  | a :: l, t => if a = t then some 0 else (jsIndexOf l t).map (· + 1)

/-- `forgetRecordIdentifier(identifierObject)`. -/
def forgetRecordIdentifier (cfg : CacheConfig) (resource : ResourceRef)
    (s : CacheState) : RRes Unit × CacheState :=
  match getRecordIdentifier cfg resource true s with
  | (.err e, s1) => (.err e, s1)
  | (.ok none, s1) => (.err "unreachable", s1)
  | (.ok (some t), s1) =>
    let ty := (tokF s1 t).type
    let (_, s2) := getTypeIndex s1 ty
    let s3 := match (tokF s2 t).id with
      | some k => modKo s2 ty (fun ko => { ko with id := jmDel ko.id k })
      | none => s2
    let s4 := delLids s3 (tokF s3 t).lid
    let s5 := modKo s4 ty (fun ko => { ko with lid := jmDel ko.lid (tokF s4 t).lid })
    let s6 := modKo s5 ty (fun ko =>
      { ko with allIdentifiers :=
          match jsIndexOf ko.allIdentifiers t with
          | some i => ko.allIdentifiers.eraseIdx i
          | none => ko.allIdentifiers.dropLast })
    let s7 := match resource with
      | .token t0 => setFieldsF s6 t0 (fun f => { f with marked := false })
      | .bare _ => s6
    (.ok (), logEv s7 (.forgetHook t))

/-- `detectMerge(typesCache, identifier, data, newId, lids)`. -/
def detectMerge (identifier : Nat) (data : ResourceData) (newId : Option String)
    (s : CacheState) : Option Nat × CacheState :=
  let f := tokF s identifier
  match f.id, newId with
  | some a, some b =>
    if a ≠ b then
      let (keyOptions, s1) := getTypeIndex s f.type
      (jmGet keyOptions.id b, s1)
    else
      -- ids equal and non-null
      let newType : Option String :=
        if truthyJ data.type then some (normalizeModelName (jstr data.type)) else none
      if newType = some f.type ∧ truthyJ data.lid ∧ jstr data.lid ≠ f.lid then
        (jmGet s.lids (jstr data.lid), s)
      else
        match newType with
        | some ty' =>
          if ty' ≠ f.type ∧ truthyJ data.lid ∧ jstr data.lid = f.lid then
            let (keyOptions, s1) := getTypeIndex s ty'
            (jmGet keyOptions.id a, s1)
          else (none, s)
        | none => (none, s)
  | _, _ =>
    -- identifier.id null or incoming id null: the first branch requires all
    -- three of id, newId non-null and different; the alternatives require
    -- id === newId with both non-null
    (none, s)

/-- `performRecordIdentifierUpdate(identifier, data, updateFn)` (DEBUG
path): fatal on a changed lid or type, warn on a changed id, invoke the
update hook, then apply the one-time id upgrade (which, as written, also
runs when the id was already set). -/
def performRecordIdentifierUpdate (identifier : Nat) (data : ResourceData)
    (s : CacheState) : RRes Unit × CacheState :=
  let f := tokF s identifier
  if data.lid ≠ .undef ∧ coerceId data.lid ≠ some f.lid then
    (.err lidUpdateMsg, s)
  else
    let sW :=
      if data.id ≠ .undef ∧ f.id ≠ none ∧ f.id ≠ coerceId data.id then
        logEv s (.warnIdChange identifier)
      else s
    if truthyJ data.type ∧ normalizeModelName (jstr data.type) ≠ f.type then
      (.err typeUpdateMsg, sW)
    else
      let sU := logEv sW (.updateHook identifier)
      let sF :=
        if data.id ≠ .undef then
          setFieldsF sU identifier (fun g => { g with id := coerceId data.id })
        else sU
      (.ok (), sF)

/-- `_mergeRecordIdentifiers(keyOptions, identifier, existingIdentifier,
data, newId)`: consult the merge method, forget the abandoned identifier,
repoint the secondary entries for `newId` at the kept value in both type
indices, and rewrite `data.lid`.  With the default merge method the kept
value is `undefined`: the current identifier is abandoned, `undefined` is
written into the secondary tables, and reading `kept.lid` throws. -/
def mergeRecordIdentifiers (cfg : CacheConfig) (tyA : String)
    (identifier existing : Nat) (data : ResourceData) (newId : Option String)
    (s : CacheState) : RRes (Nat × ResourceData) × CacheState :=
  let kept := cfg.merge identifier existing data
  let s0 := logEv s (.mergeHook identifier existing)
  let abandoned := if kept = some identifier then existing else identifier
  match forgetRecordIdentifier cfg (.token abandoned) s0 with
  | (.err e, s1) => (.err e, s1)
  | (.ok _, s1) =>
    let key := match newId with
      | some k => k
      | none => "null"
    let s2 := modKo s1 tyA (fun ko => { ko with id := jmSet ko.id key kept })
    let tyB := (tokF s2 existing).type
    let (_, s3) := getTypeIndex s2 tyB
    let s4 := modKo s3 tyB (fun ko => { ko with id := jmSet ko.id key kept })
    match kept with
    | none => (.err keptUndefinedMsg, s4)
    | some kt => (.ok (kt, { data with lid := .str (tokF s4 kt).lid }), s4)

/-- The tail of `updateRecordIdentifier` (lines after merge resolution):
apply the field update, then maintain the secondary table when the id
transitioned. -/
def finishUpdate (identifier : Nat) (data : ResourceData) (s : CacheState) :
    RRes (Nat × ResourceData) × CacheState :=
  let id0 := (tokF s identifier).id
  match performRecordIdentifierUpdate identifier data s with
  | (.err e, s1) => (.err e, s1)
  | (.ok _, s1) =>
    let newId := (tokF s1 identifier).id
    match newId with
    | some k =>
      if id0 ≠ newId then
        let ty := (tokF s1 identifier).type
        let (_, s2) := getTypeIndex s1 ty
        let s3 := modKo s2 ty (fun ko => { ko with id := jmSet ko.id k (some identifier) })
        let s4 := match id0 with
          | some k0 => modKo s3 ty (fun ko => { ko with id := jmDel ko.id k0 })
          | none => s3
        (.ok (identifier, data), s4)
      else (.ok (identifier, data), s1)
    | none => (.ok (identifier, data), s1)

/-- `updateRecordIdentifier(identifierObject, data)`: resolve the live
token, run merge detection (with the fallback resolution for incoming data
of a different type), fold duplicates through the merge path, then update
fields and secondary tables.  Returns the kept token together with the
(possibly `lid`-rewritten) incoming data object. -/
def updateRecordIdentifier (cfg : CacheConfig) (resource : ResourceRef)
    (data : ResourceData) (s : CacheState) : RRes (Nat × ResourceData) × CacheState :=
  match getRecordIdentifier cfg resource true s with
  | (.err e, s1) => (.err e, s1)
  | (.ok none, s1) => (.err "unreachable", s1)
  | (.ok (some identifier), s1) =>
    let newId := coerceId data.id
    let (em, s2) := detectMerge identifier data newId s1
    match em with
    | some existing =>
      let tyA := (tokF s2 identifier).type
      let (_, s2a) := getTypeIndex s2 tyA
      match mergeRecordIdentifiers cfg tyA identifier existing data newId s2a with
      | (.err e, s3) => (.err e, s3)
      | (.ok (kt, data'), s3) => finishUpdate kt data' s3
    | none =>
      if truthyJ data.type ∧ (tokF s2 identifier).type ≠ normalizeModelName (jstr data.type) then
        match getRecordIdentifier cfg (.bare { data with lid := .undef }) true s2 with
        | (.err e, s3) => (.err e, s3)
        | (.ok none, s3) => (.err "unreachable", s3)
        | (.ok (some existing), s3) =>
          let tyA := (tokF s3 identifier).type
          let (_, s3a) := getTypeIndex s3 tyA
          match mergeRecordIdentifiers cfg tyA identifier existing data newId s3a with
          | (.err e, s4) => (.err e, s4)
          | (.ok (kt, data'), s4) => finishUpdate kt data' s4
      else finishUpdate identifier data s2

/-! ## Operation sequences -/

/-- One public cache operation. -/
inductive CacheOp where
  | getOrCreate (r : ResourceRef)
  | peek (r : ResourceRef)
  | createForNew (ty : String) (idv : JVal)
  | update (r : ResourceRef) (d : ResourceData)
  | forget (r : ResourceRef)
deriving DecidableEq, Repr

/-- Apply one operation, keeping only the state (results and thrown
exceptions are observed by the caller, not by later operations). -/
def applyOp (cfg : CacheConfig) (s : CacheState) (op : CacheOp) : CacheState :=
  match op with
  | .getOrCreate r => (getOrCreateRecordIdentifier cfg r s).2
  | .peek r => (peekRecordIdentifier cfg r s).2
  | .createForNew ty idv => (createIdentifierForNewRecord cfg ty idv s).2
  | .update r d => (updateRecordIdentifier cfg r d s).2
  | .forget r => (forgetRecordIdentifier cfg r s).2

/-- Run a sequence of public operations. -/
def runOps (cfg : CacheConfig) (ops : List CacheOp) (s : CacheState) : CacheState :=
  ops.foldl (applyOp cfg) s

/-- Shorthand for bare resource data carrying a type and an external key. -/
def bareTI (ty id : String) : ResourceRef :=
  .bare ⟨.str ty, .str id, .undef⟩

/-- Shorthand for bare resource data carrying only a local key. -/
def bareL (l : String) : ResourceRef :=
  .bare ⟨.undef, .undef, .str l⟩

/-! ## Well-formedness invariant for cache states -/

/-- A guarded property of an optional token value (the shape of every table
entry obligation below), stated so that it stays decidable. -/
def optOk (o : Option Nat) (P : Nat → Prop) : Prop :=
  match o with
  | some t => P t
  | none => True

instance (o : Option Nat) (P : Nat → Prop) [DecidablePred P] :
    Decidable (optOk o P) :=
  match o with
  | some t => inferInstanceAs (Decidable (P t))
  | none => .isTrue trivial

/-- Obligations of one entry `L ↦ t` of the global lid table: the token is
allocated, keyed by its own lid, still marked, and registered in its own
type's index (both the primary table and the all-identifiers collection). -/
abbrev lidsEntryOk (s : CacheState) (L : String) (t : Nat) : Prop :=
  fieldsHas s t = true ∧ (tokF s t).lid = L ∧ (tokF s t).marked = true ∧
  t < s.nextTid ∧ (tmFind s.types (tokF s t).type).isSome = true ∧
  jmGet (koOf s (tokF s t).type).lid L = some t ∧
  t ∈ (koOf s (tokF s t).type).allIdentifiers

/-- Obligations of one entry `L ↦ t` of a type index's lid table: it agrees
with the global table and the token belongs to this type under this lid. -/
abbrev koLidEntryOk (s : CacheState) (ty L : String) (t : Nat) : Prop :=
  jmGet s.lids L = some t ∧ (tokF s t).type = ty ∧ (tokF s t).lid = L

/-- Obligations of a member of a type index's all-identifiers collection. -/
abbrev koAllOk (s : CacheState) (ty : String) (t : Nat) : Prop :=
  jmGet s.lids (tokF s t).lid = some t ∧ (tokF s t).type = ty ∧ t < s.nextTid

/-- Obligations of one entry `k ↦ t` of a type index's secondary (external
key) table: the token is live, of this type, and `k` is its current id. -/
abbrev koIdEntryOk (s : CacheState) (ty k : String) (t : Nat) : Prop :=
  jmGet s.lids (tokF s t).lid = some t ∧ (tokF s t).type = ty ∧
  (tokF s t).id = some k

/-- All obligations of one type index. -/
abbrev koOk (s : CacheState) (ty : String) (ko : KeyOptions) : Prop :=
  (∀ p ∈ ko.lid, optOk p.2 (koLidEntryOk s ty p.1)) ∧
  (∀ t ∈ ko.allIdentifiers, koAllOk s ty t) ∧
  ko.allIdentifiers.Nodup ∧
  (∀ p ∈ ko.id, optOk p.2 (koIdEntryOk s ty p.1))

/-- Well-formedness of a cache state: every table entry satisfies its
obligations and every allocated token id is below the allocator. -/
abbrev WF (s : CacheState) : Prop :=
  (∀ p ∈ s.lids, optOk p.2 (lidsEntryOk s p.1)) ∧
  (∀ q ∈ s.types, koOk s q.1 q.2) ∧
  (∀ p ∈ s.fields, p.1 < s.nextTid)

/-- The core invariant used for the preservation induction (a consequence
of `WF`, trimmed to the components that the public operations actually
maintain): every global entry is keyed by its token's own lid and bounded
by the allocator; every type-index primary entry agrees with the global
table and carries a token of the index's type; every type-index secondary
entry carries a live token of the index's type whose current id is the
entry's key; and all allocated token ids are below the allocator. -/
abbrev WFC (s : CacheState) : Prop :=
  (∀ p ∈ s.lids, optOk p.2 (fun t => (tokF s t).lid = p.1 ∧ t < s.nextTid)) ∧
  (∀ q ∈ s.types,
    (∀ p ∈ q.2.lid, optOk p.2 (fun t =>
      jmGet s.lids p.1 = some t ∧ (tokF s t).type = q.1)) ∧
    (∀ p ∈ q.2.id, optOk p.2 (fun t =>
      jmGet s.lids ((tokF s t).lid) = some t ∧ (tokF s t).type = q.1 ∧
      (tokF s t).id = some p.1))) ∧
  (∀ p ∈ s.fields, p.1 < s.nextTid)

/-- The binding through which a `(type, externalKey)` pair resolves on the
fast path: the type index exists and its secondary table maps the external
key to the token. -/
abbrev bindsTo (s : CacheState) (ty k : String) (t : Nat) : Prop :=
  (tmFind s.types ty).isSome = true ∧ jmGet (koOf s ty).id k = some t

/-- Does an update operation carry a well-behaved external key (present and
non-empty, or wholly absent)?  An explicit `null` or empty id resets a
token's id and strands its secondary-table entry. -/
def updateIdOk : CacheOp → Prop
  | .update _ d => truthyJ d.id = true ∨ d.id = .undef
  | _ => True

instance : DecidablePred updateIdOk := fun op =>
  match op with
  | .getOrCreate _ => .isTrue trivial
  | .peek _ => .isTrue trivial
  | .createForNew _ _ => .isTrue trivial
  | .forget _ => .isTrue trivial
  | .update _ d => inferInstanceAs (Decidable (truthyJ d.id = true ∨ d.id = .undef))

/-! ## Concrete scenario states used by individual claims -/

/-- Event predicate: is this an invocation of the merge method. -/
def isMergeEvent : CacheEvent → Bool
  | .mergeHook _ _ => true
  | _ => false

/-- Event predicate: is this an invocation of the forget hook. -/
def isForgetEvent : CacheEvent → Bool
  | .forgetHook _ => true
  | _ => false

/-- C1 scenario: resolve `(person, 5)`, then create a new record and update
it to claim external key `5` — no token is ever forgotten. -/
def c1state : CacheState :=
  runOps defaultConfig
    [.getOrCreate (bareTI "person" "5"),
     .createForNew "person" .undef,
     .update (.token 1) ⟨.undef, .str "5", .undef⟩] initCache

/-- C2 scenario: a token with external key `5`, updated with data carrying
external key `6` and the same local key. -/
def c2state : CacheState :=
  (getOrCreateRecordIdentifier defaultConfig (bareTI "person" "5") initCache).2

def c2run : RRes (Nat × ResourceData) × CacheState :=
  updateRecordIdentifier defaultConfig (.token 0)
    ⟨.undef, .str "6", .str "@ember-data:lid-person-5"⟩ c2state

/-- C3/C4 base scenario: two independently created tag tokens with external
keys `3` and `7`. -/
def twoTagState (cfg : CacheConfig) : CacheState :=
  runOps cfg [.getOrCreate (bareTI "tag" "3"), .getOrCreate (bareTI "tag" "7")] initCache

def c3run : RRes (Nat × ResourceData) × CacheState :=
  updateRecordIdentifier defaultConfig (.token 1) ⟨.undef, .str "3", .undef⟩
    (twoTagState defaultConfig)

/-- A cache configuration whose merge method picks the first (current) token
when `b` is true and the second (matched) token otherwise. -/
def mergePick (b : Bool) : CacheConfig :=
  ⟨defaultGenerationMethod, fun a c _ => if b then some a else some c⟩

def c4run (b : Bool) : RRes (Nat × ResourceData) × CacheState :=
  updateRecordIdentifier (mergePick b) (.token 1) ⟨.undef, .str "3", .undef⟩
    (twoTagState (mergePick b))

/-- C4 counterexample scenario: the second tag token is live but holds no
external key; updating it with key `3` detects no merge. -/
def c4ceState : CacheState :=
  runOps (mergePick false)
    [.getOrCreate (bareTI "tag" "3"),
     .getOrCreate (.bare ⟨.str "tag", .undef, .str "x"⟩)] initCache

def c4ceRun : RRes (Nat × ResourceData) × CacheState :=
  updateRecordIdentifier (mergePick false) (.token 1) ⟨.undef, .str "3", .undef⟩ c4ceState

/-- C5 counterexample scenario: token 0 owns the derived lid for
`(person, 5)` but holds no external key; token 1 has external key `5` under
a custom lid and is then forgotten. -/
def c5ceState : CacheState :=
  runOps defaultConfig
    [.getOrCreate (.bare ⟨.str "person", .undef, .str "@ember-data:lid-person-5"⟩),
     .getOrCreate (.bare ⟨.str "person", .str "5", .str "x"⟩),
     .forget (.token 1)] initCache

/-- C6 counterexample scenario: `(a, 9)` is resolved, then re-resolved with
an unrelated caller-supplied local key. -/
def c6state : CacheState :=
  runOps defaultConfig [.getOrCreate (bareTI "a" "9")] initCache

def c6run : RRes (Option Nat) × CacheState :=
  getOrCreateRecordIdentifier defaultConfig (.bare ⟨.str "a", .str "9", .str "weird"⟩) c6state

/-- C7 scenario: a new record created with an external key supplied. -/
def c7run : RRes Nat × CacheState :=
  createIdentifierForNewRecord defaultConfig "person" (.str "42") initCache

/-- C8 scenario states: create new person record, update with id 42. -/
def c8s1 : CacheState :=
  (createIdentifierForNewRecord defaultConfig "person" .undef initCache).2

def c8run : RRes (Nat × ResourceData) × CacheState :=
  updateRecordIdentifier defaultConfig (.token 0) ⟨.undef, .str "42", .undef⟩ c8s1

/-- C10 counterexample scenario: an update with an explicit `null` id
strands the secondary entry for `5`; after forgetting the token, a new
token of a different type reuses its lid; forgetting by `(a, 5)` then
resolves the stale entry and deletes the unrelated token's global entry. -/
def c10lid : String := "@ember-data:lid-a-5"

def c10ceState : CacheState :=
  runOps defaultConfig
    [.getOrCreate (bareTI "a" "5"),
     .update (.token 0) ⟨.undef, .nullv, .undef⟩,
     .forget (.token 0),
     .getOrCreate (.bare ⟨.str "b", .undef, .str c10lid⟩),
     .forget (bareTI "a" "5")] initCache

/-- C10 witness scenario: a sequence of all five public operations whose
updates carry a usable external key. -/
def c10ops : List CacheOp :=
  [.getOrCreate (bareTI "person" "5"),
   .createForNew "person" .undef,
   .update (.token 1) ⟨.str "person", .str "5", .undef⟩,
   .peek (bareTI "person" "7"),
   .forget (.token 0),
   .getOrCreate (bareTI "person" "5")]

/-- The state produced by minting a fresh token: allocation plus insertion
into the global table and the type index (primary table and all-tokens
collection).  This is the common insertion step of `_getRecordIdentifier`
and `createIdentifierForNewRecord`, written with the allocation inlined. -/
def mintState (s : CacheState) (f : TokenFields) (L ty : String) : CacheState :=
  modKo (setLids { s with fields := (s.nextTid, f) :: s.fields,
                          nextTid := s.nextTid + 1 } L (some s.nextTid)) ty
    (fun ko => { ko with lid := jmSet ko.lid L (some s.nextTid),
                         allIdentifiers := ko.allIdentifiers ++ [s.nextTid] })

/-- The state produced by forgetting live token `t` passed as a token
reference (the branch of `forgetRecordIdentifier` taken for a marked,
belonging token whose type index exists). -/
def forgottenState (s : CacheState) (t : Nat) : CacheState :=
  let ty := (tokF s t).type
  let s3 := match (tokF s t).id with
    | some k => modKo s ty (fun ko => { ko with id := jmDel ko.id k })
    | none => s
  let s4 := delLids s3 (tokF s3 t).lid
  let s5 := modKo s4 ty (fun ko => { ko with lid := jmDel ko.lid (tokF s4 t).lid })
  let s6 := modKo s5 ty (fun ko =>
    { ko with allIdentifiers :=
        match jsIndexOf ko.allIdentifiers t with
        | some i => ko.allIdentifiers.eraseIdx i
        | none => ko.allIdentifiers.dropLast })
  let s7 := setFieldsF s6 t (fun f => { f with marked := false })
  logEv s7 (.forgetHook t)

/-- The state mutations of `forgetRecordIdentifier` once the live token has
been resolved: deletion from the secondary table, the global table, the
primary table and the all-tokens collection, then the unmark of the
caller-supplied object (`unm` is the token reference the caller passed, if
it passed one) and the forget hook. -/
def forgetBodyState (s : CacheState) (t : Nat) (unm : Option Nat) : CacheState :=
  let ty := (tokF s t).type
  let s2 := (getTypeIndex s ty).2
  let s3 := match (tokF s2 t).id with
    | some k => modKo s2 ty (fun ko => { ko with id := jmDel ko.id k })
    | none => s2
  let s4 := delLids s3 (tokF s3 t).lid
  let s5 := modKo s4 ty (fun ko => { ko with lid := jmDel ko.lid (tokF s4 t).lid })
  let s6 := modKo s5 ty (fun ko =>
    { ko with allIdentifiers :=
        match jsIndexOf ko.allIdentifiers t with
        | some i => ko.allIdentifiers.eraseIdx i
        | none => ko.allIdentifiers.dropLast })
  let s7 := match unm with
    | some t0 => setFieldsF s6 t0 (fun f => { f with marked := false })
    | none => s6
  logEv s7 (.forgetHook t)

/-- The token id that `forgetRecordIdentifier` unmarks: the caller-supplied
object when it is a token reference. -/
def unmTarget : ResourceRef → Option Nat
  | .token t0 => some t0
  | .bare _ => none

/-- A configuration whose generation method ignores its input and returns a
fixed key, used to exercise the generation-mismatch error path. -/
def cfgOther : CacheConfig :=
  ⟨fun _ c => ("other", c), defaultMergeMethod⟩

/-! ## Theorems: concrete claim scenarios -/

/-- Claim C1, counterexample: `(person, 5)` first resolves to token 0; after
an intervening `createIdentifierForNewRecord` and an update that claims
external key `5` for the new token 1 — operations that forget nothing
(the only event is the update hook) — the same resolve call returns
token 1, while token 0 is still live under its local key. -/
theorem c1_counterexample :
    (getOrCreateRecordIdentifier defaultConfig (bareTI "person" "5") initCache).1 =
      .ok (some 0) ∧
    (getOrCreateRecordIdentifier defaultConfig (bareTI "person" "5") c1state).1 =
      .ok (some 1) ∧
    jmGet c1state.lids "@ember-data:lid-person-5" = some 0 ∧
    (tokF c1state 0).marked = true ∧
    c1state.events = [.updateHook 1] := by decide

/-- Claim C2, counterexample: a token with external key `5`, updated with
data carrying external key `6` for the same local key, does not keep `5`:
its external key afterwards is `6`. -/
theorem c2_counterexample :
    (tokF c2state 0).id = some "5" ∧
    c2run.1 = .ok (0, ⟨.undef, .str "6", .str "@ember-data:lid-person-5"⟩) ∧
    (tokF c2run.2 0).id = some "6" ∧
    (tokF c2run.2 0).id ≠ some "5" := by decide

/-- Claim C2 as amended: the attempt to change an already-set external key
is reported as a non-fatal warning, and the external key is then updated to
the incoming value — the change is never silent; the secondary table is
re-pointed from the old key to the new one and the token stays live. -/
theorem c2_amended_warn_and_replace :
    CacheEvent.warnIdChange 0 ∈ c2run.2.events ∧
    c2run.1 = .ok (0, ⟨.undef, .str "6", .str "@ember-data:lid-person-5"⟩) ∧
    (tokF c2run.2 0).id = some "6" ∧
    jmGet (koOf c2run.2 "person").id "6" = some 0 ∧
    jmGet (koOf c2run.2 "person").id "5" = none ∧
    jmGet c2run.2.lids "@ember-data:lid-person-5" = some 0 := by decide

/-- Claim C3: behaviour of the code at the failing input.  With the default
merge method (never configured), updating the tag token holding key `7`
with data bearing key `3` (already held by another token) does collapse a
token: the current token is forgotten (its forget hook fires and it leaves
the global table), the secondary entry for `3` is overwritten with
`undefined`, and the call throws instead of returning a live token. -/
theorem c3_default_merge_behavior :
    c3run.1 = .err keptUndefinedMsg ∧
    CacheEvent.mergeHook 1 0 ∈ c3run.2.events ∧
    CacheEvent.forgetHook 1 ∈ c3run.2.events ∧
    jmGet c3run.2.lids "@ember-data:lid-tag-7" = none ∧
    (tokF c3run.2 1).marked = false ∧
    jmGet (koOf c3run.2 "tag").id "3" = none ∧
    jmHasKey (koOf c3run.2 "tag").id "3" = true := by decide

/-- Claim C4, counterexample: two independently created live tag tokens,
token 0 holding external key `3` and token 1 holding none; updating token 1
with data bearing key `3` invokes the merge method zero times (not exactly
once), forgets nothing, and silently re-points the secondary entry for `3`
at token 1 while token 0 stays live. -/
theorem c4_counterexample :
    (tokF c4ceState 0).id = some "3" ∧
    (tokF c4ceState 1).id = none ∧
    jmGet c4ceState.lids "x" = some 1 ∧
    c4ceRun.1 = .ok (1, ⟨.undef, .str "3", .undef⟩) ∧
    c4ceRun.2.events.countP isMergeEvent = 0 ∧
    c4ceRun.2.events.countP isForgetEvent = 0 ∧
    jmGet (koOf c4ceRun.2 "tag").id "3" = some 1 ∧
    jmGet c4ceRun.2.lids "@ember-data:lid-tag-3" = some 0 := by decide

/-- Claim C4 as amended: when the updated token itself carries a different
non-absent external key (so that merge detection applies), the configured
merge method is invoked exactly once with the two tokens; whichever token
it returns survives, becomes the sole token resolvable by `3`, the incoming
data's lid is rewritten to the survivor's lid, and the other token goes
through the forget path. -/
theorem c4_amended_merge_survivor (b : Bool) :
    (c4run b).2.events.countP isMergeEvent = 1 ∧
    CacheEvent.mergeHook 1 0 ∈ (c4run b).2.events ∧
    (c4run b).1 = .ok (if b then 1 else 0,
      ⟨.undef, .str "3", .str (tokF (c4run b).2 (if b then 1 else 0)).lid⟩) ∧
    jmGet (koOf (c4run b).2 "tag").id "3" = some (if b then 1 else 0) ∧
    (getOrCreateRecordIdentifier (mergePick b) (bareTI "tag" "3") (c4run b).2).1 =
      .ok (some (if b then 1 else 0)) ∧
    CacheEvent.forgetHook (if b then 0 else 1) ∈ (c4run b).2.events ∧
    jmGet (c4run b).2.lids (tokF (c4run b).2 (if b then 0 else 1)).lid = none ∧
    jmGet (c4run b).2.lids (tokF (c4run b).2 (if b then 1 else 0)).lid =
      some (if b then 1 else 0) := by
  cases b <;> decide

/-- Claim C5, counterexample: token 1 (type `person`, external key `5`) is
live and then forgotten; yet a peek with its type and external key does not
return "no identity" — it resolves (through the generation method's derived
lid) to the unrelated token 0. -/
theorem c5_counterexample :
    (tokF c5ceState 1).type = "person" ∧
    (tokF c5ceState 1).id = some "5" ∧
    c5ceState.events = [.forgetHook 1] ∧
    (peekRecordIdentifier defaultConfig (bareTI "person" "5") c5ceState).1 =
      .ok (some 0) ∧
    (0 : Nat) ≠ 1 := by decide

/-- Claim C6, counterexample: resource data carrying local key `weird`
(together with type `a` and external key `9`) resolves through the
secondary external-key table to token 0, whose local key is the derived
`@ember-data:lid-a-9`, not `weird` — and no error is reported. -/
theorem c6_counterexample :
    c6run.1 = .ok (some 0) ∧
    (tokF c6run.2 0).lid = "@ember-data:lid-a-9" ∧
    (tokF c6run.2 0).lid ≠ "weird" := by decide

/-- Claim C7, counterexample: `createIdentifierForNewRecord` with data
carrying external key `42` mints token 0 whose id field is `42`, but leaves
the type index's external-key table empty: the table is not populated. -/
theorem c7_counterexample :
    c7run.1 = .ok 0 ∧
    (tokF c7run.2 0).id = some "42" ∧
    (koOf c7run.2 "person").id = [] ∧
    jmHasKey (koOf c7run.2 "person").id "42" = false := by decide

/-- Claim C8: the new-record round trip.  `createIdentifierForNewRecord`
with only a type yields token 0 with no external key; updating it with
data `id = 42` sets its external key; resolving `(person, 42)` afterwards
returns the very same token. -/
theorem c8_new_record_round_trip :
    (createIdentifierForNewRecord defaultConfig "person" .undef initCache).1 = .ok 0 ∧
    (tokF c8s1 0).id = none ∧
    c8run.1 = .ok (0, ⟨.undef, .str "42", .undef⟩) ∧
    (tokF c8run.2 0).id = some "42" ∧
    (getOrCreateRecordIdentifier defaultConfig (bareTI "person" "42") c8run.2).1 =
      .ok (some 0) := by decide

/-- Claim C10, counterexample: after a sequence of five public operations
(an update carrying an explicit `null` external key, two forgets, and two
resolves), the type index for `b` maps the lid to token 1 while the global
table has no entry for that lid: the two tables disagree. -/
theorem c10_counterexample :
    jmGet (koOf c10ceState "b").lid c10lid = some 1 ∧
    (tokF c10ceState 1).type = "b" ∧
    (tokF c10ceState 1).marked = true ∧
    jmGet c10ceState.lids c10lid = none := by decide



/-! ## Lemmas about the table primitives -/

theorem jmGet_del_self (m : JMap) (k : String) : jmGet (jmDel m k) k = none := by
  induction m with
  | nil => rfl
  | cons p m ih =>
    by_cases h : p.1 = k <;> simp [jmDel, jmGet, h, ih]

theorem jmGet_del_ne (m : JMap) (k k' : String) (h : k' ≠ k) :
    jmGet (jmDel m k) k' = jmGet m k' := by
  induction m with
  | nil => rfl
  | cons p m ih =>
    by_cases hp : p.1 = k
    · have hkk : ¬(k = k') := fun hh => h hh.symm
      simp [jmDel, jmGet, hp, hkk, ih]
    · by_cases hk : p.1 = k' <;> simp [jmDel, jmGet, hp, hk, h, ih]

theorem jmHasKey_del_self (m : JMap) (k : String) :
    jmHasKey (jmDel m k) k = false := by
  induction m with
  | nil => rfl
  | cons p m ih =>
    by_cases h : p.1 = k <;> simp [jmDel, jmHasKey, h, ih]

theorem jmGet_none_of_hasKey_false (m : JMap) (k : String)
    (h : jmHasKey m k = false) : jmGet m k = none := by
  induction m with
  | nil => rfl
  | cons p m ih =>
    by_cases hp : p.1 = k
    · simp [jmHasKey, hp] at h
    · simp only [jmHasKey, hp] at h
      simp only [jmGet, hp, if_false]
      simp at h
      exact ih h

theorem jmGet_append_left (m m' : JMap) (k : String)
    (h : jmHasKey m k = true) : jmGet (m ++ m') k = jmGet m k := by
  induction m with
  | nil => simp [jmHasKey] at h
  | cons p m ih =>
    by_cases hp : p.1 = k
    · simp [jmGet, hp]
    · simp only [jmHasKey, hp] at h
      simp at h
      simp [jmGet, hp, ih h]

theorem jmGet_append_right (m m' : JMap) (k : String)
    (h : jmHasKey m k = false) : jmGet (m ++ m') k = jmGet m' k := by
  induction m with
  | nil => rfl
  | cons p m ih =>
    by_cases hp : p.1 = k
    · simp [jmHasKey, hp] at h
    · simp only [jmHasKey, hp] at h
      simp at h
      simp [jmGet, hp, ih h]

theorem jmGet_set_self (m : JMap) (k : String) (v : Option Nat) :
    jmGet (jmSet m k v) k = v := by
  unfold jmSet
  rw [jmGet_append_right _ _ _ (jmHasKey_del_self m k)]
  simp [jmGet]

theorem jmGet_set_ne (m : JMap) (k k' : String) (v : Option Nat) (h : k' ≠ k) :
    jmGet (jmSet m k v) k' = jmGet m k' := by
  unfold jmSet
  cases hh : jmHasKey (jmDel m k) k' with
  | true => rw [jmGet_append_left _ _ _ hh, jmGet_del_ne m k k' h]
  | false =>
    rw [jmGet_append_right _ _ _ hh]
    have h1 : jmGet (jmDel m k) k' = none := jmGet_none_of_hasKey_false _ _ hh
    rw [jmGet_del_ne m k k' h] at h1
    have hkk : ¬(k = k') := fun hx => h hx.symm
    simp [jmGet, hkk, h1]

theorem mem_jmDel (m : JMap) (k : String) (p : String × Option Nat)
    (h : p ∈ jmDel m k) : p ∈ m ∧ p.1 ≠ k := by
  induction m with
  | nil => simp [jmDel] at h
  | cons q m ih =>
    by_cases hq : q.1 = k
    · simp only [jmDel, hq, if_true] at h
      obtain ⟨h1, h2⟩ := ih h
      exact ⟨List.mem_cons_of_mem _ h1, h2⟩
    · simp only [jmDel, hq, if_false, List.mem_cons] at h
      rcases h with rfl | h
      · exact ⟨List.mem_cons_self _ _, hq⟩
      · obtain ⟨h1, h2⟩ := ih h
        exact ⟨List.mem_cons_of_mem _ h1, h2⟩

theorem mem_jmSet (m : JMap) (k : String) (v : Option Nat)
    (p : String × Option Nat) (h : p ∈ jmSet m k v) :
    p = (k, v) ∨ (p ∈ m ∧ p.1 ≠ k) := by
  unfold jmSet at h
  rw [List.mem_append] at h
  rcases h with h | h
  · exact Or.inr (mem_jmDel m k p h)
  · simp at h
    exact Or.inl h

theorem jmGet_mem (m : JMap) (k : String) (t : Nat) (h : jmGet m k = some t) :
    (k, some t) ∈ m := by
  induction m with
  | nil => simp [jmGet] at h
  | cons p m ih =>
    by_cases hp : p.1 = k
    · simp only [jmGet, hp, if_true] at h
      have hpp : p = (k, some t) := by
        cases p
        simp_all
      rw [← hpp]
      exact List.mem_cons_self _ _
    · simp only [jmGet, hp, if_false] at h
      exact List.mem_cons_of_mem _ (ih h)

theorem tmFind_mem (m : TMap) (ty : String) (ko : KeyOptions)
    (h : tmFind m ty = some ko) : (ty, ko) ∈ m := by
  induction m with
  | nil => simp [tmFind] at h
  | cons q m ih =>
    by_cases hq : q.1 = ty
    · simp only [tmFind, hq, if_true, Option.some.injEq] at h
      have : q = (ty, ko) := by
        cases q
        simp_all
      rw [← this]
      exact List.mem_cons_self _ _
    · simp only [tmFind, hq, if_false] at h
      exact List.mem_cons_of_mem _ (ih h)

theorem tmFind_mod_self (m : TMap) (ty : String) (f : KeyOptions → KeyOptions) :
    tmFind (tmMod m ty f) ty = (tmFind m ty).map f := by
  unfold tmMod
  induction m with
  | nil => rfl
  | cons q m ih =>
    by_cases hq : q.1 = ty
    · simp [tmFind, hq]
    · simp [tmFind, hq, ih]

theorem tmFind_mod_ne (m : TMap) (ty ty' : String) (f : KeyOptions → KeyOptions)
    (h : ty' ≠ ty) : tmFind (tmMod m ty f) ty' = tmFind m ty' := by
  unfold tmMod
  have hne : ¬(ty = ty') := fun hx => h hx.symm
  induction m with
  | nil => rfl
  | cons q m ih =>
    by_cases hq : q.1 = ty
    · simp [tmFind, hq, hne, ih]
    · by_cases hq' : q.1 = ty' <;> simp [tmFind, hq, hq', h, ih]

theorem mem_tmMod (m : TMap) (ty : String) (f : KeyOptions → KeyOptions)
    (q : String × KeyOptions) (h : q ∈ tmMod m ty f) :
    (∃ ko, (ty, ko) ∈ m ∧ q = (ty, f ko)) ∨ (q ∈ m ∧ q.1 ≠ ty) := by
  unfold tmMod at h
  rw [List.mem_map] at h
  obtain ⟨q0, hq0, hq⟩ := h
  by_cases hk : q0.1 = ty
  · left
    refine ⟨q0.2, ?_, ?_⟩
    · have : q0 = (ty, q0.2) := by
        cases q0
        simp_all
      rw [← this]
      exact hq0
    · rw [← hq]
      simp [hk]
  · right
    rw [← hq]
    simp [hk]
    exact hq0

theorem tmFind_append_sing (m : TMap) (q : String × KeyOptions) (ty : String) :
    tmFind (m ++ [q]) ty = match tmFind m ty with
      | some ko => some ko
      | none => if q.1 = ty then some q.2 else none := by
  induction m with
  | nil => simp [tmFind]
  | cons r m ih =>
    by_cases hr : r.1 = ty <;> simp [tmFind, hr, ih]

theorem mem_append_sing (m : TMap) (q r : String × KeyOptions)
    (h : r ∈ m ++ [q]) : r ∈ m ∨ r = q := by
  rw [List.mem_append] at h
  rcases h with h | h
  · exact Or.inl h
  · simp at h
    exact Or.inr h

/-! ## Lemmas about state helpers -/

theorem getTypeIndex_found (s : CacheState) (ty : String) (ko : KeyOptions)
    (h : tmFind s.types ty = some ko) : getTypeIndex s ty = (ko, s) := by
  simp [getTypeIndex, h]

theorem getTypeIndex_missing (s : CacheState) (ty : String)
    (h : tmFind s.types ty = none) :
    getTypeIndex s ty =
      (emptyKeyOptions, { s with types := s.types ++ [(ty, emptyKeyOptions)] }) := by
  simp [getTypeIndex, h]

theorem koOf_of_find (s : CacheState) (ty : String) (ko : KeyOptions)
    (h : tmFind s.types ty = some ko) : koOf s ty = ko := by
  simp [koOf, h]

theorem fLook_of_fHas_false (m : List (Nat × TokenFields)) (t : Nat)
    (h : fHas m t = false) : fLook m t = ⟨"", none, "", false, false⟩ := by
  induction m with
  | nil => rfl
  | cons p m ih =>
    by_cases hp : p.1 = t
    · simp [fHas, hp] at h
    · simp only [fHas, hp] at h
      simp at h
      simp [fLook, hp, ih h]

theorem fLook_cons_self (p : Nat × TokenFields) (m : List (Nat × TokenFields)) :
    fLook (p :: m) p.1 = p.2 := by
  simp [fLook]

theorem fLook_cons_ne (p : Nat × TokenFields) (m : List (Nat × TokenFields))
    (t : Nat) (h : p.1 ≠ t) : fLook (p :: m) t = fLook m t := by
  simp [fLook, h]

theorem fLook_map_set_self (m : List (Nat × TokenFields)) (t : Nat)
    (f : TokenFields → TokenFields) (h : fHas m t = true) :
    fLook (m.map (fun p => if p.1 = t then (p.1, f p.2) else p)) t = f (fLook m t) := by
  induction m with
  | nil => simp [fHas] at h
  | cons p m ih =>
    by_cases hp : p.1 = t
    · simp [fLook, hp]
    · simp only [fHas, hp] at h
      simp at h
      simp [fLook, hp, ih h]

theorem fLook_map_set_ne (m : List (Nat × TokenFields)) (t t' : Nat)
    (f : TokenFields → TokenFields) (h : t' ≠ t) :
    fLook (m.map (fun p => if p.1 = t then (p.1, f p.2) else p)) t' = fLook m t' := by
  have hne : ¬(t = t') := fun hx => h hx.symm
  induction m with
  | nil => rfl
  | cons p m ih =>
    by_cases hp : p.1 = t
    · simp [fLook, hp, hne, ih]
    · by_cases hp' : p.1 = t' <;> simp [fLook, hp, hp', h, ih]

theorem fLook_map_nohas (m : List (Nat × TokenFields)) (t : Nat)
    (g : TokenFields → TokenFields) (h : fHas m t = false) :
    fLook (m.map (fun p => if p.1 = t then (p.1, g p.2) else p)) t =
      fLook m t := by
  induction m with
  | nil => rfl
  | cons p m ih =>
    by_cases hp : p.1 = t
    · simp [fHas, hp] at h
    · simp only [fHas, hp] at h
      simp at h
      simp [fLook, hp, ih h]

theorem fHas_of_fLookup_mem (m : List (Nat × TokenFields)) (t : Nat)
    (f : TokenFields) (h : (t, f) ∈ m) : fHas m t = true := by
  induction m with
  | nil => simp at h
  | cons p m ih =>
    rcases List.mem_cons.mp h with rfl | h
    · simp [fHas]
    · by_cases hp : p.1 = t <;> simp [fHas, hp, ih h]

/-! ## Resolution lemmas -/

/-- When the type index exists and its secondary table binds `k` to `t`, a
resolve by `(ty, k)` returns `t` and leaves the state untouched. -/
theorem resolve_hits_binding (cfg : CacheConfig) (s : CacheState) (ty k : String)
    (t : Nat) (hty : ty ≠ "") (hk : k ≠ "") (hb : bindsTo s ty k t) :
    getOrCreateRecordIdentifier cfg (bareTI ty k) s = (.ok (some t), s) := by
  obtain ⟨hsome, hget⟩ := hb
  obtain ⟨ko, hko⟩ : ∃ ko, tmFind s.types ty = some ko := by
    cases hf : tmFind s.types ty with
    | none => rw [hf] at hsome; simp at hsome
    | some ko => exact ⟨ko, rfl⟩
  rw [koOf_of_find s ty ko hko] at hget
  unfold getOrCreateRecordIdentifier getRecordIdentifier bareTI resolveData
  simp [coerceId, jvalIsNonEmptyString, truthyJ, hty, hk, normalizeModelName, jstr,
    getTypeIndex, hko, hget]

/-- Claim C1 as amended: once `(ty, k)` has resolved to token `t`, any later
resolve of the same pair returns the very same token, with no state change,
as long as the intervening operations have left the type index's secondary
entry for `k` bound to `t` (no forget of `t`, and no update claiming `k`
for another token). -/
theorem c1_amended_stability (cfg : CacheConfig) (s : CacheState) (ty k : String)
    (t : Nat) (ws : List CacheOp) (hty : ty ≠ "") (hk : k ≠ "")
    (hfirst : (getOrCreateRecordIdentifier cfg (bareTI ty k) s).1 = .ok (some t))
    (hbind : bindsTo (runOps cfg ws (getOrCreateRecordIdentifier cfg (bareTI ty k) s).2)
      ty k t) :
    getOrCreateRecordIdentifier cfg (bareTI ty k)
        (runOps cfg ws (getOrCreateRecordIdentifier cfg (bareTI ty k) s).2) =
      (.ok (some t),
        runOps cfg ws (getOrCreateRecordIdentifier cfg (bareTI ty k) s).2) :=
  resolve_hits_binding cfg _ ty k t hty hk hbind

/-- Witness for `c1_amended_stability` at a concrete input: `(person, 5)`
resolves to token 0, a peek of the same data intervenes, and the later
resolve returns token 0 again. -/
theorem c1_amended_stability_witness :
    ("person" ≠ "" ∧ "5" ≠ "" ∧
      (getOrCreateRecordIdentifier defaultConfig (bareTI "person" "5") initCache).1 =
        .ok (some 0) ∧
      bindsTo (runOps defaultConfig [.peek (bareTI "person" "5")]
        (getOrCreateRecordIdentifier defaultConfig (bareTI "person" "5") initCache).2)
        "person" "5" 0) ∧
    getOrCreateRecordIdentifier defaultConfig (bareTI "person" "5")
        (runOps defaultConfig [.peek (bareTI "person" "5")]
          (getOrCreateRecordIdentifier defaultConfig (bareTI "person" "5") initCache).2) =
      (.ok (some 0),
        runOps defaultConfig [.peek (bareTI "person" "5")]
          (getOrCreateRecordIdentifier defaultConfig (bareTI "person" "5") initCache).2) :=
  ⟨⟨by decide, by decide, by decide, by decide⟩,
    c1_amended_stability defaultConfig initCache "person" "5" 0
      [.peek (bareTI "person" "5")] (by decide) (by decide) (by decide) (by decide)⟩

/-- Claim C9: a peek whose data's local key matches no live token and which
does not supply both a non-empty type and a non-empty external key returns
"no identity" with the state unchanged: no error, no token creation. -/
theorem c9_expected_absence (cfg : CacheConfig) (d : ResourceData) (s : CacheState)
    (hl : ∀ l, coerceId d.lid = some l → jmGet s.lids l = none)
    (hti : ¬(truthyJ d.type = true ∧ truthyJ d.id = true)) :
    peekRecordIdentifier cfg (.bare d) s = (.ok none, s) := by
  have hor : truthyJ d.type = false ∨ truthyJ d.id = false := by
    cases hA : truthyJ d.type with
    | false => exact Or.inl rfl
    | true =>
      cases hB : truthyJ d.id with
      | false => exact Or.inr rfl
      | true => exact absurd ⟨hA, hB⟩ hti
  unfold peekRecordIdentifier getRecordIdentifier resolveData
  rcases hor with h | h
  · cases hcl : coerceId d.lid with
    | none => simp [hcl, h]
    | some l => simp [hcl, hl l hcl, h]
  · cases hcl : coerceId d.lid with
    | none => simp [hcl, h]
    | some l => simp [hcl, hl l hcl, h]

/-- Witness for `c9_expected_absence` at a concrete input. -/
theorem c9_expected_absence_witness :
    ((∀ l, coerceId (JVal.undef) = some l → jmGet initCache.lids l = none) ∧
      ¬(truthyJ (JVal.str "person") = true ∧ truthyJ (JVal.nullv) = true)) ∧
    peekRecordIdentifier defaultConfig (.bare ⟨.str "person", .nullv, .undef⟩)
        initCache = (.ok none, initCache) :=
  ⟨⟨fun l h => by simp [coerceId] at h, by decide⟩,
    c9_expected_absence defaultConfig ⟨.str "person", .nullv, .undef⟩ initCache
      (fun l h => by simp [coerceId] at h) (by decide)⟩

/-- Claim C7 as amended: `createIdentifierForNewRecord` (when the generated
lid is fresh) returns the freshly minted token and inserts it into the
global local-key table, the type index's local-key table and the all-tokens
collection — but it leaves the type index's external-key table exactly as
it was, even when the supplied data carries an external key (the token's id
field is set nonetheless). -/
theorem c7_amended_create_for_new (cfg : CacheConfig) (s : CacheState)
    (ty : String) (idv : JVal)
    (hfresh : jmHasKey s.lids (cfg.generate ⟨.str ty, idv, .undef⟩ s.uuidCtr).1 = false) :
    (createIdentifierForNewRecord cfg ty idv s).1 = .ok s.nextTid ∧
    jmGet (createIdentifierForNewRecord cfg ty idv s).2.lids
        (cfg.generate ⟨.str ty, idv, .undef⟩ s.uuidCtr).1 = some s.nextTid ∧
    jmGet (koOf (createIdentifierForNewRecord cfg ty idv s).2 ty).lid
        (cfg.generate ⟨.str ty, idv, .undef⟩ s.uuidCtr).1 = some s.nextTid ∧
    s.nextTid ∈ (koOf (createIdentifierForNewRecord cfg ty idv s).2 ty).allIdentifiers ∧
    (koOf (createIdentifierForNewRecord cfg ty idv s).2 ty).id = (koOf s ty).id ∧
    tokF (createIdentifierForNewRecord cfg ty idv s).2 s.nextTid =
      ⟨(cfg.generate ⟨.str ty, idv, .undef⟩ s.uuidCtr).1,
        if truthyJ idv then some (jstr idv) else none, ty, true, true⟩ := by
  cases hf : tmFind s.types ty with
  | some ko =>
    simp [createIdentifierForNewRecord, setCtr, allocToken, getTypeIndex, hf,
      hfresh, setLids, modKo, koOf, tmFind_mod_self, jmGet_set_self, tokF, fLook,
      koOf_of_find s ty ko hf]
  | none =>
    have happ : tmFind
        (s.types ++ [(ty, ({ lid := [], id := [], allIdentifiers := [] } : KeyOptions))]) ty =
        some { lid := [], id := [], allIdentifiers := [] } := by
      rw [tmFind_append_sing]
      simp [hf]
    simp [createIdentifierForNewRecord, setCtr, allocToken, getTypeIndex, hf,
      hfresh, setLids, modKo, koOf, tmFind_mod_self, happ, jmGet_set_self, tokF,
      fLook, emptyKeyOptions]

/-- Witness for `c7_amended_create_for_new` at a concrete input. -/
theorem c7_amended_create_for_new_witness :
    jmHasKey initCache.lids
        ((defaultConfig.generate ⟨.str "person", .str "42", .undef⟩
          initCache.uuidCtr).1) = false ∧
    (createIdentifierForNewRecord defaultConfig "person" (.str "42") initCache).1 =
      .ok initCache.nextTid ∧
    (koOf (createIdentifierForNewRecord defaultConfig "person" (.str "42")
      initCache).2 "person").id = (koOf initCache "person").id :=
  ⟨by decide,
    (c7_amended_create_for_new defaultConfig initCache "person" (.str "42")
      (by decide)).1,
    (c7_amended_create_for_new defaultConfig initCache "person" (.str "42")
      (by decide)).2.2.2.2.1⟩

/-- In a well-formed state, a resolve whose data carries a non-empty local
key `L` and no external key can only return a token whose local key is `L`
(the fast path and the primary table agree with the supplied key; the mint
path uses the generation result, which must equal `L` or throw). -/
theorem resolve_lid_no_id_preserves (cfg : CacheConfig) (s : CacheState)
    (ty L : String) (t : Nat) (s' : CacheState) (hwf : WF s) (hL : L ≠ "")
    (h : getOrCreateRecordIdentifier cfg (.bare ⟨.str ty, .undef, .str L⟩) s =
      (.ok (some t), s')) :
    (tokF s' t).lid = L := by
  unfold getOrCreateRecordIdentifier getRecordIdentifier resolveData at h
  simp only [coerceId, hL, if_false, ite_false, if_neg, normalizeModelName, jstr] at h
  cases hfound : jmGet s.lids L with
  | some t0 =>
    simp only [hfound, Prod.mk.injEq, RRes.ok.injEq, Option.some.injEq] at h
    obtain ⟨rfl, rfl⟩ := h
    have hmem := jmGet_mem _ _ _ hfound
    exact (hwf.1 _ hmem).2.1
  | none =>
    simp only [hfound] at h
    by_cases htyE : ty = ""
    · subst htyE
      simp [jvalIsNonEmptyString, truthyJ] at h
    · simp only [jvalIsNonEmptyString, truthyJ] at h
      rw [if_neg (by simp), if_neg (by simp [htyE])] at h
      cases hf : tmFind s.types ty with
      | some ko =>
        simp only [getTypeIndex, hf] at h
        cases hid1 : jmGet ko.lid L with
        | some t1 =>
          simp only [hid1, Prod.mk.injEq, RRes.ok.injEq, Option.some.injEq] at h
          obtain ⟨rfl, rfl⟩ := h
          exact ((hwf.2.1 _ (tmFind_mem _ _ _ hf)).1 _ (jmGet_mem _ _ _ hid1)).2.2
        | none =>
          simp only [hid1] at h
          by_cases hgen :
              (cfg.generate ⟨.str ty, .undef, .str L⟩ s.uuidCtr).1 = L
          · rw [if_neg (by simp [hgen])] at h
            unfold mintOrFinish at h
            simp only [allocToken, setCtr] at h
            by_cases hhk :
                jmHasKey s.lids (cfg.generate ⟨.str ty, .undef, .str L⟩ s.uuidCtr).1 = true
            · simp [hhk] at h
            · simp only [eq_false_of_ne_true hhk, Bool.false_eq_true, if_false,
                Prod.mk.injEq, RRes.ok.injEq, Option.some.injEq] at h
              obtain ⟨rfl, rfl⟩ := h
              simp [writeIdEntry, tokF, fLook, setLids, modKo, hgen]
          · rw [if_pos (by simp [hgen])] at h
            simp at h
      | none =>
        simp only [getTypeIndex, hf] at h
        simp only [show jmGet emptyKeyOptions.lid L = none from rfl] at h
        by_cases hgen :
            (cfg.generate ⟨.str ty, .undef, .str L⟩ s.uuidCtr).1 = L
        · rw [if_neg (by simp [hgen])] at h
          unfold mintOrFinish at h
          simp only [allocToken, setCtr] at h
          by_cases hhk :
              jmHasKey s.lids (cfg.generate ⟨.str ty, .undef, .str L⟩ s.uuidCtr).1 = true
          · simp [hhk] at h
          · simp only [eq_false_of_ne_true hhk, Bool.false_eq_true, if_false,
              Prod.mk.injEq, RRes.ok.injEq, Option.some.injEq] at h
            obtain ⟨rfl, rfl⟩ := h
            simp [writeIdEntry, tokF, fLook, setLids, modKo, hgen]
        · rw [if_pos (by simp [hgen])] at h
          simp at h

/-- When resolution reaches the generation method (unknown lid, unseen
type) and the method returns a key different from the caller-supplied one,
the resolve throws the lid-change contract violation. -/
theorem resolve_lid_gen_mismatch (cfg : CacheConfig) (s : CacheState)
    (ty L : String) (hL : L ≠ "") (hty : ty ≠ "")
    (hnl : jmGet s.lids L = none) (hnf : tmFind s.types ty = none)
    (hgen : (cfg.generate ⟨.str ty, .undef, .str L⟩ s.uuidCtr).1 ≠ L) :
    (getOrCreateRecordIdentifier cfg (.bare ⟨.str ty, .undef, .str L⟩) s).1 =
      .err lidChangeMsg := by
  unfold getOrCreateRecordIdentifier getRecordIdentifier resolveData
  simp only [coerceId, hL, if_false, ite_false, if_neg, normalizeModelName, jstr,
    hnl, jvalIsNonEmptyString, truthyJ]
  rw [if_neg (by simp), if_neg (by simp [hty])]
  simp only [getTypeIndex, hnf]
  simp only [show jmGet emptyKeyOptions.lid L = none from rfl]
  rw [if_pos (by simp [hgen])]

/-- Claim C6 as amended: a resolve whose data carries non-empty local key
`L` and no external key never produces a token whose local key differs from
`L` (in particular, when the generation policy is consulted and returns a
different key, the call throws); the original claim fails only through the
secondary external-key lookup, which can return a token with a different
local key when the data also carries an external key. -/
theorem c6_amended_lid_passthrough :
    (∀ cfg s ty L t s', WF s → L ≠ "" →
      getOrCreateRecordIdentifier cfg (.bare ⟨.str ty, .undef, .str L⟩) s =
        (.ok (some t), s') →
      (tokF s' t).lid = L) ∧
    (∀ cfg s ty L, L ≠ "" → ty ≠ "" →
      jmGet s.lids L = none → tmFind s.types ty = none →
      (cfg.generate ⟨.str ty, .undef, .str L⟩ s.uuidCtr).1 ≠ L →
      (getOrCreateRecordIdentifier cfg (.bare ⟨.str ty, .undef, .str L⟩) s).1 =
        .err lidChangeMsg) :=
  ⟨fun cfg s ty L t s' hwf hL h =>
      resolve_lid_no_id_preserves cfg s ty L t s' hwf hL h,
    fun cfg s ty L hL hty hnl hnf hgen =>
      resolve_lid_gen_mismatch cfg s ty L hL hty hnl hnf hgen⟩

/-- Witness for `c6_amended_lid_passthrough` at concrete inputs: minting a
token for `{type: person, lid: me}` yields a token whose lid is `me`, and a
generation method returning `other` instead of the supplied `me` makes the
call throw. -/
theorem c6_amended_lid_passthrough_witness :
    (WF initCache ∧ "me" ≠ "" ∧
      getOrCreateRecordIdentifier defaultConfig
          (.bare ⟨.str "person", .undef, .str "me"⟩) initCache =
        (.ok (some 0),
          (getOrCreateRecordIdentifier defaultConfig
            (.bare ⟨.str "person", .undef, .str "me"⟩) initCache).2) ∧
      (tokF (getOrCreateRecordIdentifier defaultConfig
        (.bare ⟨.str "person", .undef, .str "me"⟩) initCache).2 0).lid = "me") ∧
    ((cfgOther.generate ⟨.str "person", .undef, .str "me"⟩ initCache.uuidCtr).1 ≠ "me" ∧
      (getOrCreateRecordIdentifier cfgOther
        (.bare ⟨.str "person", .undef, .str "me"⟩) initCache).1 = .err lidChangeMsg) :=
  ⟨⟨by decide, by decide, by decide,
    c6_amended_lid_passthrough.1 defaultConfig initCache "person" "me" 0
      (getOrCreateRecordIdentifier defaultConfig
        (.bare ⟨.str "person", .undef, .str "me"⟩) initCache).2
      (by decide) (by decide) (by decide)⟩,
   ⟨by decide,
    c6_amended_lid_passthrough.2 cfgOther initCache "person" "me"
      (by decide) (by decide) (by decide) (by decide) (by decide)⟩⟩

/-! ## Projection lemmas for the state helpers -/

@[simp] theorem setLids_lids (s : CacheState) (k : String) (v : Option Nat) :
    (setLids s k v).lids = jmSet s.lids k v := rfl
@[simp] theorem setLids_types (s : CacheState) (k : String) (v : Option Nat) :
    (setLids s k v).types = s.types := rfl
@[simp] theorem setLids_fields (s : CacheState) (k : String) (v : Option Nat) :
    (setLids s k v).fields = s.fields := rfl
@[simp] theorem setLids_nextTid (s : CacheState) (k : String) (v : Option Nat) :
    (setLids s k v).nextTid = s.nextTid := rfl
@[simp] theorem setLids_uuidCtr (s : CacheState) (k : String) (v : Option Nat) :
    (setLids s k v).uuidCtr = s.uuidCtr := rfl
@[simp] theorem setLids_events (s : CacheState) (k : String) (v : Option Nat) :
    (setLids s k v).events = s.events := rfl

@[simp] theorem delLids_lids (s : CacheState) (k : String) :
    (delLids s k).lids = jmDel s.lids k := rfl
@[simp] theorem delLids_types (s : CacheState) (k : String) :
    (delLids s k).types = s.types := rfl
@[simp] theorem delLids_fields (s : CacheState) (k : String) :
    (delLids s k).fields = s.fields := rfl
@[simp] theorem delLids_nextTid (s : CacheState) (k : String) :
    (delLids s k).nextTid = s.nextTid := rfl
@[simp] theorem delLids_uuidCtr (s : CacheState) (k : String) :
    (delLids s k).uuidCtr = s.uuidCtr := rfl
@[simp] theorem delLids_events (s : CacheState) (k : String) :
    (delLids s k).events = s.events := rfl

@[simp] theorem modKo_lids (s : CacheState) (ty : String) (f : KeyOptions → KeyOptions) :
    (modKo s ty f).lids = s.lids := rfl
@[simp] theorem modKo_types (s : CacheState) (ty : String) (f : KeyOptions → KeyOptions) :
    (modKo s ty f).types = tmMod s.types ty f := rfl
@[simp] theorem modKo_fields (s : CacheState) (ty : String) (f : KeyOptions → KeyOptions) :
    (modKo s ty f).fields = s.fields := rfl
@[simp] theorem modKo_nextTid (s : CacheState) (ty : String) (f : KeyOptions → KeyOptions) :
    (modKo s ty f).nextTid = s.nextTid := rfl
@[simp] theorem modKo_uuidCtr (s : CacheState) (ty : String) (f : KeyOptions → KeyOptions) :
    (modKo s ty f).uuidCtr = s.uuidCtr := rfl
@[simp] theorem modKo_events (s : CacheState) (ty : String) (f : KeyOptions → KeyOptions) :
    (modKo s ty f).events = s.events := rfl

@[simp] theorem setFieldsF_lids (s : CacheState) (t : Nat) (f : TokenFields → TokenFields) :
    (setFieldsF s t f).lids = s.lids := rfl
@[simp] theorem setFieldsF_types (s : CacheState) (t : Nat) (f : TokenFields → TokenFields) :
    (setFieldsF s t f).types = s.types := rfl
@[simp] theorem setFieldsF_nextTid (s : CacheState) (t : Nat) (f : TokenFields → TokenFields) :
    (setFieldsF s t f).nextTid = s.nextTid := rfl
@[simp] theorem setFieldsF_uuidCtr (s : CacheState) (t : Nat) (f : TokenFields → TokenFields) :
    (setFieldsF s t f).uuidCtr = s.uuidCtr := rfl
@[simp] theorem setFieldsF_events (s : CacheState) (t : Nat) (f : TokenFields → TokenFields) :
    (setFieldsF s t f).events = s.events := rfl

@[simp] theorem setCtr_lids (s : CacheState) (c : Nat) : (setCtr s c).lids = s.lids := rfl
@[simp] theorem setCtr_types (s : CacheState) (c : Nat) : (setCtr s c).types = s.types := rfl
@[simp] theorem setCtr_fields (s : CacheState) (c : Nat) : (setCtr s c).fields = s.fields := rfl
@[simp] theorem setCtr_nextTid (s : CacheState) (c : Nat) : (setCtr s c).nextTid = s.nextTid := rfl
@[simp] theorem setCtr_uuidCtr (s : CacheState) (c : Nat) : (setCtr s c).uuidCtr = c := rfl
@[simp] theorem setCtr_events (s : CacheState) (c : Nat) : (setCtr s c).events = s.events := rfl

@[simp] theorem logEv_lids (s : CacheState) (e : CacheEvent) : (logEv s e).lids = s.lids := rfl
@[simp] theorem logEv_types (s : CacheState) (e : CacheEvent) : (logEv s e).types = s.types := rfl
@[simp] theorem logEv_fields (s : CacheState) (e : CacheEvent) : (logEv s e).fields = s.fields := rfl
@[simp] theorem logEv_nextTid (s : CacheState) (e : CacheEvent) : (logEv s e).nextTid = s.nextTid := rfl
@[simp] theorem logEv_uuidCtr (s : CacheState) (e : CacheEvent) : (logEv s e).uuidCtr = s.uuidCtr := rfl
@[simp] theorem logEv_events (s : CacheState) (e : CacheEvent) : (logEv s e).events = e :: s.events := rfl

@[simp] theorem tokF_setLids (s : CacheState) (k : String) (v : Option Nat) (u : Nat) :
    tokF (setLids s k v) u = tokF s u := rfl
@[simp] theorem tokF_delLids (s : CacheState) (k : String) (u : Nat) :
    tokF (delLids s k) u = tokF s u := rfl
@[simp] theorem tokF_modKo (s : CacheState) (ty : String) (f : KeyOptions → KeyOptions) (u : Nat) :
    tokF (modKo s ty f) u = tokF s u := rfl
@[simp] theorem tokF_setCtr (s : CacheState) (c : Nat) (u : Nat) :
    tokF (setCtr s c) u = tokF s u := rfl
@[simp] theorem tokF_logEv (s : CacheState) (e : CacheEvent) (u : Nat) :
    tokF (logEv s e) u = tokF s u := rfl

@[simp] theorem fieldsHas_setLids (s : CacheState) (k : String) (v : Option Nat) (u : Nat) :
    fieldsHas (setLids s k v) u = fieldsHas s u := rfl
@[simp] theorem fieldsHas_delLids (s : CacheState) (k : String) (u : Nat) :
    fieldsHas (delLids s k) u = fieldsHas s u := rfl
@[simp] theorem fieldsHas_modKo (s : CacheState) (ty : String) (f : KeyOptions → KeyOptions) (u : Nat) :
    fieldsHas (modKo s ty f) u = fieldsHas s u := rfl
@[simp] theorem fieldsHas_setCtr (s : CacheState) (c : Nat) (u : Nat) :
    fieldsHas (setCtr s c) u = fieldsHas s u := rfl
@[simp] theorem fieldsHas_logEv (s : CacheState) (e : CacheEvent) (u : Nat) :
    fieldsHas (logEv s e) u = fieldsHas s u := rfl

theorem tokF_setFieldsF_self (s : CacheState) (t : Nat) (f : TokenFields → TokenFields)
    (hfh : fieldsHas s t = true) :
    tokF (setFieldsF s t f) t = f (tokF s t) :=
  fLook_map_set_self s.fields t f hfh

theorem tokF_setFieldsF_ne (s : CacheState) (t u : Nat) (f : TokenFields → TokenFields)
    (h : u ≠ t) : tokF (setFieldsF s t f) u = tokF s u :=
  fLook_map_set_ne s.fields t u f h

theorem tokF_setFieldsF_nohas (s : CacheState) (t : Nat)
    (g : TokenFields → TokenFields) (h : fHas s.fields t = false) :
    tokF (setFieldsF s t g) t = tokF s t :=
  fLook_map_nohas s.fields t g h

/-! ## Lemmas for the forget path -/

theorem tmMod_tmMod (m : TMap) (ty : String) (f g : KeyOptions → KeyOptions) :
    tmMod (tmMod m ty f) ty g = tmMod m ty (fun ko => g (f ko)) := by
  unfold tmMod
  induction m with
  | nil => rfl
  | cons q m ih =>
    by_cases hq : q.1 = ty
    · simp [hq, ih]
    · simp [hq, ih]

theorem jsIndexOf_mem (l : List Nat) (t : Nat) (h : t ∈ l) :
    ∃ i, jsIndexOf l t = some i := by
  induction l with
  | nil => simp at h
  | cons a l ih =>
    by_cases ha : a = t
    · exact ⟨0, by simp [jsIndexOf, ha]⟩
    · have ht : t ∈ l := by
        rcases List.mem_cons.mp h with h1 | h1
        · exact absurd h1.symm ha
        · exact h1
      obtain ⟨i, hi⟩ := ih ht
      exact ⟨i + 1, by simp [jsIndexOf, ha, hi]⟩

theorem splice_eq_erase (l : List Nat) (t : Nat) (h : t ∈ l) :
    (match jsIndexOf l t with
     | some i => l.eraseIdx i
     | none => l.dropLast) = l.erase t := by
  induction l with
  | nil => simp at h
  | cons a l ih =>
    by_cases ha : a = t
    · subst ha
      simp [jsIndexOf, List.erase_cons_head]
    · have ht : t ∈ l := by
        rcases List.mem_cons.mp h with h1 | h1
        · exact absurd h1.symm ha
        · exact h1
      obtain ⟨i, hidx⟩ := jsIndexOf_mem l t ht
      have hrec := ih ht
      rw [hidx] at hrec
      simp only at hrec
      rw [List.erase_cons_tail (by simpa using ha)]
      simp only [jsIndexOf, ha, if_false, hidx]
      simpa using hrec

/-- Forgetting a live, marked token via a token reference takes exactly the
`forgottenState` path. -/
theorem forget_token_eq (cfg : CacheConfig) (s : CacheState) (t : Nat)
    (ko : KeyOptions) (hmk : (tokF s t).marked = true)
    (hlive : jmGet s.lids (tokF s t).lid = some t)
    (hko : tmFind s.types ((tokF s t).type) = some ko) :
    forgetRecordIdentifier cfg (.token t) s = (.ok (), forgottenState s t) := by
  unfold forgetRecordIdentifier getRecordIdentifier forgottenState
  simp only [hmk, if_true, hlive, if_pos, getTypeIndex, hko]

theorem forgottenState_lids (s : CacheState) (t : Nat) :
    (forgottenState s t).lids = jmDel s.lids (tokF s t).lid := by
  unfold forgottenState
  cases hid : (tokF s t).id <;> simp [hid]

theorem forgottenState_events (s : CacheState) (t : Nat) :
    (forgottenState s t).events = .forgetHook t :: s.events := by
  unfold forgottenState
  cases hid : (tokF s t).id <;> simp [hid]

theorem forgottenState_tokF_self (s : CacheState) (t : Nat)
    (hfh : fieldsHas s t = true) :
    tokF (forgottenState s t) t = { tokF s t with marked := false } := by
  unfold forgottenState
  cases hid : (tokF s t).id <;>
  · simp only [hid]
    rw [tokF_logEv, tokF_setFieldsF_self]
    · simp [hid]
    · exact hfh

theorem forgottenState_tokF_ne (s : CacheState) (t u : Nat) (h : u ≠ t) :
    tokF (forgottenState s t) u = tokF s u := by
  unfold forgottenState
  cases hid : (tokF s t).id <;>
  · simp only [hid]
    rw [tokF_logEv, tokF_setFieldsF_ne _ _ _ _ h]
    simp

theorem forgottenState_types_self (s : CacheState) (t : Nat) (ko : KeyOptions)
    (hko : tmFind s.types ((tokF s t).type) = some ko)
    (hmem : t ∈ ko.allIdentifiers) :
    tmFind (forgottenState s t).types ((tokF s t).type) =
      some { lid := jmDel ko.lid (tokF s t).lid,
             id := match (tokF s t).id with
               | some k => jmDel ko.id k
               | none => ko.id,
             allIdentifiers := ko.allIdentifiers.erase t } := by
  unfold forgottenState
  cases hid : (tokF s t).id with
  | some k =>
    simp only [hid, logEv_types, setFieldsF_types, modKo_types, delLids_types,
      tokF_modKo, tokF_delLids]
    rw [tmMod_tmMod, tmMod_tmMod, tmFind_mod_self, hko]
    simp [splice_eq_erase _ _ hmem, hid]
  | none =>
    simp only [hid, logEv_types, setFieldsF_types, modKo_types, delLids_types,
      tokF_modKo, tokF_delLids]
    rw [tmMod_tmMod, tmFind_mod_self, hko]
    simp [splice_eq_erase _ _ hmem, hid]

theorem jmGet_del_eq_some (m : JMap) (k k' : String) (t : Nat)
    (h : jmGet (jmDel m k) k' = some t) : jmGet m k' = some t ∧ k' ≠ k := by
  by_cases he : k' = k
  · subst he
    rw [jmGet_del_self] at h
    exact absurd h (by simp)
  · rw [jmGet_del_ne m k k' he] at h
    exact ⟨h, he⟩

/-- Claim C5 as amended: forgetting a live token `t` (passed as the token
itself) removes it from every index: a peek by its local key returns no
identity; a peek by its `(type, externalKey)` never returns `t` itself
(though it may resolve to a different token through the generation method's
derived-lid lookup); `t` is removed from the all-tokens collection with the
remaining order preserved; `t` is no longer marked as a stable identifier;
and the forget hook is invoked with `t`. -/
theorem c5_amended_forget_removes (cfg : CacheConfig) (s : CacheState) (t : Nat)
    (hwf : WF s) (hlive : jmGet s.lids ((tokF s t).lid) = some t) :
    forgetRecordIdentifier cfg (.token t) s = (.ok (), forgottenState s t) ∧
    (peekRecordIdentifier cfg (.bare ⟨.undef, .undef, .str (tokF s t).lid⟩)
        (forgottenState s t)).1 = .ok none ∧
    (∀ k u, (tokF s t).id = some k →
      (peekRecordIdentifier cfg (.bare ⟨.str (tokF s t).type, .str k, .undef⟩)
        (forgottenState s t)).1 = .ok (some u) → u ≠ t) ∧
    (koOf (forgottenState s t) (tokF s t).type).allIdentifiers =
      (koOf s (tokF s t).type).allIdentifiers.erase t ∧
    t ∉ (koOf (forgottenState s t) (tokF s t).type).allIdentifiers ∧
    (tokF (forgottenState s t) t).marked = false ∧
    CacheEvent.forgetHook t ∈ (forgottenState s t).events := by
  have hmem := jmGet_mem _ _ _ hlive
  have hok : lidsEntryOk s (tokF s t).lid t := hwf.1 _ hmem
  obtain ⟨hfh, -, hmk, hlt, hfs, hkl, hka⟩ := hok
  obtain ⟨ko, hf⟩ : ∃ ko, tmFind s.types ((tokF s t).type) = some ko := by
    cases hff : tmFind s.types ((tokF s t).type) with
    | none => rw [hff] at hfs; simp at hfs
    | some ko => exact ⟨ko, rfl⟩
  have hkoOf : koOf s (tokF s t).type = ko := koOf_of_find _ _ _ hf
  rw [hkoOf] at hka
  have hkoF := forgottenState_types_self s t ko hf hka
  have hkoOkS : koOk s ((tokF s t).type) ko := hwf.2.1 _ (tmFind_mem _ _ _ hf)
  refine ⟨forget_token_eq cfg s t ko hmk hlive hf, ?_, ?_, ?_, ?_, ?_, ?_⟩
  · -- peek by the local key finds nothing
    unfold peekRecordIdentifier getRecordIdentifier resolveData
    by_cases hL : (tokF s t).lid = ""
    · simp [coerceId, hL, truthyJ]
    · simp [coerceId, hL, truthyJ, forgottenState_lids, jmGet_del_self]
  · -- peek by (type, externalKey) cannot return t
    intro k u hid h
    unfold peekRecordIdentifier getRecordIdentifier resolveData at h
    simp only [coerceId] at h
    by_cases hty : (tokF s t).type = ""
    · rw [hty] at h
      simp [truthyJ] at h
    · by_cases hk : k = ""
      · simp [hk, truthyJ] at h
      · simp only [truthyJ, hk, hty, jvalIsNonEmptyString, normalizeModelName,
          jstr] at h
        rw [if_neg (by simp [hk, hty]), if_neg (by simp [hty])] at h
        simp only [getTypeIndex, hkoF, hid, if_false, ite_false] at h
        rw [show jmGet (jmDel ko.id k) k = none from jmGet_del_self _ _] at h
        simp only [mintOrFinish, Bool.false_eq_true, if_false,
          RRes.ok.injEq] at h
        intro hut
        subst hut
        obtain ⟨hgo, hne⟩ := jmGet_del_eq_some _ _ _ _ h
        have := (hkoOkS.1 _ (jmGet_mem _ _ _ hgo))
        exact hne this.2.2.symm
  · rw [koOf_of_find _ _ _ hkoF, hkoOf]
  · rw [koOf_of_find _ _ _ hkoF]
    intro hin
    have hnd : ko.allIdentifiers.Nodup := hkoOkS.2.2.1
    rw [List.Nodup.mem_erase_iff hnd] at hin
    exact hin.1 rfl
  · rw [forgottenState_tokF_self s t hfh]
  · rw [forgottenState_events]
    exact List.mem_cons_self _ _

/-- Witness for `c5_amended_forget_removes` at a concrete input: forgetting
the live `(person, 5)` token in a well-formed state. -/
theorem c5_amended_forget_removes_witness :
    (WF c2state ∧ jmGet c2state.lids ((tokF c2state 0).lid) = some 0) ∧
    forgetRecordIdentifier defaultConfig (.token 0) c2state =
      (.ok (), forgottenState c2state 0) ∧
    (tokF (forgottenState c2state 0) 0).marked = false :=
  ⟨⟨by decide, by decide⟩,
    (c5_amended_forget_removes defaultConfig c2state 0 (by decide) (by decide)).1,
    (c5_amended_forget_removes defaultConfig c2state 0 (by decide)
      (by decide)).2.2.2.2.2.1⟩

/-! ## The core invariant: extractors and small preservation steps -/

theorem wfc_lids_get {s : CacheState} {L : String} {t : Nat} (h : WFC s)
    (hg : jmGet s.lids L = some t) : (tokF s t).lid = L ∧ t < s.nextTid :=
  h.1 _ (jmGet_mem _ _ _ hg)

theorem wfc_kolid_get {s : CacheState} {ty K : String} {ko : KeyOptions} {t : Nat}
    (h : WFC s) (hf : tmFind s.types ty = some ko)
    (hg : jmGet ko.lid K = some t) :
    jmGet s.lids K = some t ∧ (tokF s t).type = ty :=
  (h.2.1 _ (tmFind_mem _ _ _ hf)).1 _ (jmGet_mem _ _ _ hg)

theorem wfc_koid_get {s : CacheState} {ty k : String} {ko : KeyOptions} {t : Nat}
    (h : WFC s) (hf : tmFind s.types ty = some ko)
    (hg : jmGet ko.id k = some t) :
    jmGet s.lids ((tokF s t).lid) = some t ∧ (tokF s t).type = ty ∧
      (tokF s t).id = some k :=
  (h.2.1 _ (tmFind_mem _ _ _ hf)).2 _ (jmGet_mem _ _ _ hg)

/-- Adding a fresh empty type index preserves the core invariant. -/
theorem wfc_addIndex {s : CacheState} (ty : String) (h : WFC s) :
    WFC { s with types := s.types ++ [(ty, emptyKeyOptions)] } := by
  refine ⟨h.1, ?_, h.2.2⟩
  intro q hq
  rcases mem_append_sing _ _ _ hq with hq | rfl
  · exact h.2.1 q hq
  · exact ⟨by intro p hp; simp [emptyKeyOptions] at hp,
      by intro p hp; simp [emptyKeyOptions] at hp⟩

/-- `getTypeIndex` preserves the core invariant. -/
theorem wfc_getTypeIndex {s : CacheState} (ty : String) (h : WFC s) :
    WFC (getTypeIndex s ty).2 := by
  cases hf : tmFind s.types ty with
  | some ko => rw [getTypeIndex_found _ _ _ hf]; exact h
  | none => rw [getTypeIndex_missing _ _ hf]; exact wfc_addIndex ty h

/-- Allocating a token (without inserting it anywhere) preserves the core
invariant. -/
theorem wfc_alloc {s : CacheState} (f : TokenFields) (h : WFC s) :
    WFC (allocToken s f).2 := by
  have htokF : ∀ u, u < s.nextTid → tokF (allocToken s f).2 u = tokF s u := by
    intro u hu
    show fLook ((s.nextTid, f) :: s.fields) u = fLook s.fields u
    rw [fLook_cons_ne]
    exact fun he => absurd he.symm (Nat.ne_of_lt hu)
  refine ⟨?_, ?_, ?_⟩
  · intro p hp
    have := h.1 p hp
    cases hv : p.2 with
    | none => trivial
    | some t =>
      rw [hv] at this
      obtain ⟨h1, h2⟩ := this
      exact ⟨by rw [htokF t h2]; exact h1, Nat.lt_succ_of_lt h2⟩
  · intro q hq
    obtain ⟨hl, hi⟩ := h.2.1 q hq
    constructor
    · intro p hp
      have := hl p hp
      cases hv : p.2 with
      | none => trivial
      | some t =>
        rw [hv] at this
        obtain ⟨h1, h2⟩ := this
        have hb := (wfc_lids_get h h1).2
        exact ⟨h1, by rw [htokF t hb]; exact h2⟩
    · intro p hp
      have := hi p hp
      cases hv : p.2 with
      | none => trivial
      | some t =>
        rw [hv] at this
        obtain ⟨h1, h2, h3⟩ := this
        have hb := (wfc_lids_get h h1).2
        refine ⟨?_, ?_, ?_⟩ <;> rw [htokF t hb]
        · exact h1
        · exact h2
        · exact h3
  · intro p hp
    rcases List.mem_cons.mp hp with rfl | hp
    · exact Nat.lt_succ_self _
    · exact Nat.lt_succ_of_lt (h.2.2 p hp)

/-- Writing the secondary entry for a live token of the right type under its
own current id preserves the core invariant. -/
theorem wfc_writeIdEntry {s : CacheState} {ty : String} {t : Nat} (h : WFC s)
    (hlive : jmGet s.lids ((tokF s t).lid) = some t)
    (hty : (tokF s t).type = ty) :
    WFC (writeIdEntry s ty t) := by
  unfold writeIdEntry
  cases hid : (tokF s t).id with
  | none => exact h
  | some k =>
    show WFC (modKo s ty (fun ko => { ko with id := jmSet ko.id k (some t) }))
    refine ⟨h.1, ?_, h.2.2⟩
    intro q hq
    simp only [modKo_types] at hq
    simp only [modKo_lids, tokF_modKo]
    rcases mem_tmMod _ _ _ q hq with ⟨ko, hmem, rfl⟩ | ⟨hmem, hne⟩
    · obtain ⟨hl, hi⟩ := h.2.1 _ hmem
      refine ⟨hl, ?_⟩
      intro p hp
      rcases mem_jmSet _ _ _ _ hp with rfl | ⟨hp0, hpk⟩
      · exact ⟨hlive, hty, hid⟩
      · exact hi p hp0
    · exact h.2.1 q hmem


@[simp] theorem mintState_lids (s : CacheState) (f : TokenFields) (L ty : String) :
    (mintState s f L ty).lids = jmSet s.lids L (some s.nextTid) := rfl
@[simp] theorem mintState_types (s : CacheState) (f : TokenFields) (L ty : String) :
    (mintState s f L ty).types = tmMod s.types ty
      (fun ko => { ko with lid := jmSet ko.lid L (some s.nextTid),
                           allIdentifiers := ko.allIdentifiers ++ [s.nextTid] }) := rfl
@[simp] theorem mintState_fields (s : CacheState) (f : TokenFields) (L ty : String) :
    (mintState s f L ty).fields = (s.nextTid, f) :: s.fields := rfl
@[simp] theorem mintState_nextTid (s : CacheState) (f : TokenFields) (L ty : String) :
    (mintState s f L ty).nextTid = s.nextTid + 1 := rfl

theorem mintState_tokF_self (s : CacheState) (f : TokenFields) (L ty : String) :
    tokF (mintState s f L ty) s.nextTid = f :=
  fLook_cons_self (s.nextTid, f) s.fields

theorem mintState_tokF_ne (s : CacheState) (f : TokenFields) (L ty : String)
    (u : Nat) (hu : u ≠ s.nextTid) : tokF (mintState s f L ty) u = tokF s u :=
  fLook_cons_ne (s.nextTid, f) s.fields u (fun he => hu he.symm)

/-- Minting a token under a fresh lid preserves the core invariant. -/
theorem wfc_insert {s : CacheState} {ty L : String} (f : TokenFields)
    (h : WFC s) (hfresh : jmGet s.lids L = none)
    (hfL : f.lid = L) (hfT : f.type = ty) :
    WFC (mintState s f L ty) := by
  refine ⟨?_, ?_, ?_⟩
  · intro p hp
    rw [mintState_lids] at hp
    rcases mem_jmSet _ _ _ _ hp with rfl | ⟨hp0, hpk⟩
    · refine ⟨?_, ?_⟩
      · rw [mintState_tokF_self, hfL]
      · rw [mintState_nextTid]
        exact Nat.lt_succ_self _
    · have := h.1 p hp0
      cases hv : p.2 with
      | none => trivial
      | some u =>
        rw [hv] at this
        obtain ⟨h1, h2⟩ := this
        refine ⟨?_, ?_⟩
        · rw [mintState_tokF_ne _ _ _ _ _ (Nat.ne_of_lt h2)]
          exact h1
        · rw [mintState_nextTid]
          exact Nat.lt_succ_of_lt h2
  · intro q hq
    rw [mintState_types] at hq
    rcases mem_tmMod _ _ _ q hq with ⟨ko, hmem, rfl⟩ | ⟨hmem, hne⟩
    · obtain ⟨hl, hi⟩ := h.2.1 _ hmem
      constructor
      · intro p hp
        rcases mem_jmSet _ _ _ _ hp with rfl | ⟨hp0, hpk⟩
        · refine ⟨?_, ?_⟩
          · rw [mintState_lids]
            exact jmGet_set_self _ _ _
          · rw [mintState_tokF_self, hfT]
        · have := hl p hp0
          cases hv : p.2 with
          | none => trivial
          | some u =>
            rw [hv] at this
            obtain ⟨h1, h2⟩ := this
            have hb := (wfc_lids_get h h1).2
            refine ⟨?_, ?_⟩
            · rw [mintState_lids, jmGet_set_ne _ _ _ _ hpk]
              exact h1
            · rw [mintState_tokF_ne _ _ _ _ _ (Nat.ne_of_lt hb)]
              exact h2
      · intro p hp
        have := hi p hp
        cases hv : p.2 with
        | none => trivial
        | some u =>
          rw [hv] at this
          obtain ⟨h1, h2, h3⟩ := this
          have hb := (wfc_lids_get h h1).2
          have hlne : (tokF s u).lid ≠ L := by
            intro he
            rw [he, hfresh] at h1
            exact absurd h1 (by simp)
          refine ⟨?_, ?_, ?_⟩
          · rw [mintState_tokF_ne _ _ _ _ _ (Nat.ne_of_lt hb), mintState_lids,
              jmGet_set_ne _ _ _ _ hlne]
            exact h1
          · rw [mintState_tokF_ne _ _ _ _ _ (Nat.ne_of_lt hb)]
            exact h2
          · rw [mintState_tokF_ne _ _ _ _ _ (Nat.ne_of_lt hb)]
            exact h3
    · obtain ⟨hl, hi⟩ := h.2.1 q hmem
      constructor
      · intro p hp
        have := hl p hp
        cases hv : p.2 with
        | none => trivial
        | some u =>
          rw [hv] at this
          obtain ⟨h1, h2⟩ := this
          have hb := (wfc_lids_get h h1).2
          have hkne : p.1 ≠ L := by
            intro he
            rw [he, hfresh] at h1
            exact absurd h1 (by simp)
          refine ⟨?_, ?_⟩
          · rw [mintState_lids, jmGet_set_ne _ _ _ _ hkne]
            exact h1
          · rw [mintState_tokF_ne _ _ _ _ _ (Nat.ne_of_lt hb)]
            exact h2
      · intro p hp
        have := hi p hp
        cases hv : p.2 with
        | none => trivial
        | some u =>
          rw [hv] at this
          obtain ⟨h1, h2, h3⟩ := this
          have hb := (wfc_lids_get h h1).2
          have hlne : (tokF s u).lid ≠ L := by
            intro he
            rw [he, hfresh] at h1
            exact absurd h1 (by simp)
          refine ⟨?_, ?_, ?_⟩
          · rw [mintState_tokF_ne _ _ _ _ _ (Nat.ne_of_lt hb), mintState_lids,
              jmGet_set_ne _ _ _ _ hlne]
            exact h1
          · rw [mintState_tokF_ne _ _ _ _ _ (Nat.ne_of_lt hb)]
            exact h2
          · rw [mintState_tokF_ne _ _ _ _ _ (Nat.ne_of_lt hb)]
            exact h3
  · intro p hp
    rw [mintState_fields] at hp
    rcases List.mem_cons.mp hp with rfl | hp0
    · rw [mintState_nextTid]
      exact Nat.lt_succ_self _
    · rw [mintState_nextTid]
      exact Nat.lt_succ_of_lt (h.2.2 p hp0)

theorem writeIdEntry_lids (s : CacheState) (ty : String) (t : Nat) :
    (writeIdEntry s ty t).lids = s.lids := by
  unfold writeIdEntry
  cases (tokF s t).id <;> rfl

theorem writeIdEntry_tokF (s : CacheState) (ty : String) (t u : Nat) :
    tokF (writeIdEntry s ty t) u = tokF s u := by
  unfold writeIdEntry
  cases (tokF s t).id <;> rfl

/-- The tail of the resolution path preserves the core invariant and only
returns live tokens. -/
theorem wfc_mintOrFinish (ty : String) (idf : Option String) (ident3 : Option Nat)
    (newLid : String) (sg : Bool) (s : CacheState) (h : WFC s)
    (hid3 : ∀ u, ident3 = some u →
      jmGet s.lids ((tokF s u).lid) = some u ∧ (tokF s u).type = ty) :
    WFC (mintOrFinish ty idf ident3 newLid sg s).2 ∧
    ∀ t, (mintOrFinish ty idf ident3 newLid sg s).1 = .ok (some t) →
      jmGet (mintOrFinish ty idf ident3 newLid sg s).2.lids
        ((tokF (mintOrFinish ty idf ident3 newLid sg s).2 t).lid) = some t := by
  cases sg with
  | false =>
    have heq : mintOrFinish ty idf ident3 newLid false s = (.ok ident3, s) := by
      unfold mintOrFinish
      simp
    rw [heq]
    refine ⟨h, ?_⟩
    intro t ht
    simp only [RRes.ok.injEq] at ht
    exact (hid3 t ht).1
  | true =>
    cases hi3 : ident3 with
    | some u =>
      have heq : mintOrFinish ty idf (some u) newLid true s =
          (.ok (some u), writeIdEntry s ty u) := by
        unfold mintOrFinish
        simp
      rw [heq]
      obtain ⟨hlv, hty⟩ := hid3 u hi3
      refine ⟨wfc_writeIdEntry h hlv hty, ?_⟩
      intro t ht
      simp only [RRes.ok.injEq, Option.some.injEq] at ht
      subst ht
      rw [writeIdEntry_lids, writeIdEntry_tokF]
      exact hlv
    | none =>
      cases hk : jmHasKey s.lids newLid with
      | true =>
        have heq : mintOrFinish ty idf none newLid true s =
            (.err typeChangeMsg, (allocToken s ⟨newLid, idf, ty, false, true⟩).2) := by
          unfold mintOrFinish
          simp only [if_true, allocToken]
          rw [if_pos]
          exact hk
        rw [heq]
        refine ⟨wfc_alloc _ h, ?_⟩
        intro t ht
        exact absurd ht (by simp)
      | false =>
        have heq : mintOrFinish ty idf none newLid true s =
            (.ok (some s.nextTid),
              writeIdEntry (mintState s ⟨newLid, idf, ty, false, true⟩ newLid ty)
                ty s.nextTid) := by
          unfold mintOrFinish
          simp only [if_true, allocToken]
          rw [if_neg]
          · rfl
          · rw [hk]
            simp
        rw [heq]
        have hwfC : WFC (mintState s ⟨newLid, idf, ty, false, true⟩ newLid ty) :=
          wfc_insert _ h (jmGet_none_of_hasKey_false _ _ hk) rfl rfl
        have hlv : jmGet (mintState s ⟨newLid, idf, ty, false, true⟩ newLid ty).lids
            ((tokF (mintState s ⟨newLid, idf, ty, false, true⟩ newLid ty) s.nextTid).lid) =
            some s.nextTid := by
          rw [mintState_tokF_self, mintState_lids]
          exact jmGet_set_self _ _ _
        have htyq : (tokF (mintState s ⟨newLid, idf, ty, false, true⟩ newLid ty)
            s.nextTid).type = ty := by
          rw [mintState_tokF_self]
        refine ⟨wfc_writeIdEntry hwfC hlv htyq, ?_⟩
        intro t ht
        simp only [RRes.ok.injEq, Option.some.injEq] at ht
        subst ht
        rw [writeIdEntry_lids, writeIdEntry_tokF]
        exact hlv

/-- The resolution body preserves the core invariant, and every token it
returns is live (its own lid maps to it in the global table of the
resulting state). -/
theorem resolveData_wfc (cfg : CacheConfig) (rd : ResourceData) (sg : Bool)
    (s : CacheState) (h : WFC s) :
    WFC (resolveData cfg rd sg s).2 ∧
    ∀ t, (resolveData cfg rd sg s).1 = .ok (some t) →
      jmGet (resolveData cfg rd sg s).2.lids
        ((tokF (resolveData cfg rd sg s).2 t).lid) = some t := by
  cases hcl : coerceId rd.lid with
  | some l =>
    cases hfound : jmGet s.lids l with
    | some t0 =>
      have heq : resolveData cfg rd sg s = (.ok (some t0), s) := by
        unfold resolveData
        simp only [hcl]
        simp [hfound]
      rw [heq]
      refine ⟨h, ?_⟩
      intro t ht
      simp only [RRes.ok.injEq, Option.some.injEq] at ht
      subst ht
      rw [(wfc_lids_get h hfound).1]
      exact hfound
    | none =>
      by_cases hEarly : sg = false ∧ (truthyJ rd.type = false ∨ truthyJ rd.id = false)
      · have heq : resolveData cfg rd sg s = (.ok none, s) := by
          unfold resolveData
          simp only [hcl]
          simp only [hfound]
          rw [if_pos hEarly]
        rw [heq]
        exact ⟨h, by intro t ht; exact absurd ht (by simp)⟩
      · by_cases hassert : jvalIsNonEmptyString rd.type = false
        · have heq : resolveData cfg rd sg s = (.err typeAssertMsg, s) := by
            unfold resolveData
            simp only [hcl]
            simp only [hfound]
            rw [if_neg hEarly, if_pos hassert]
          rw [heq]
          exact ⟨h, by intro t ht; exact absurd ht (by simp)⟩
        · cases hf : tmFind s.types (normalizeModelName (jstr rd.type)) with
          | some ko =>
            cases hko1 : jmGet ko.lid l with
            | some t1 =>
              have heq : resolveData cfg rd sg s = (.ok (some t1), s) := by
                unfold resolveData
                simp only [hcl]
                simp only [hfound]
                rw [if_neg hEarly, if_neg hassert]
                simp only [getTypeIndex, hf, hko1]
              rw [heq]
              refine ⟨h, ?_⟩
              intro t ht
              simp only [RRes.ok.injEq, Option.some.injEq] at ht
              subst ht
              have hg := wfc_kolid_get h hf hko1
              rw [(wfc_lids_get h hg.1).1]
              exact hg.1
            | none =>
              have hcommon : ∀ idv : Option String,
                  coerceId rd.id = idv →
                  (∀ k t2, idv = some k → jmGet ko.id k = some t2 → False) →
                  resolveData cfg rd sg s =
                    (if (cfg.generate rd s.uuidCtr).1 ≠ l then
                      (RRes.err lidChangeMsg, setCtr s (cfg.generate rd s.uuidCtr).2)
                    else
                      mintOrFinish (normalizeModelName (jstr rd.type)) idv none
                        (cfg.generate rd s.uuidCtr).1 sg
                        (setCtr s (cfg.generate rd s.uuidCtr).2)) := by
                intro idv hid hmiss
                unfold resolveData
                simp only [hcl]
                simp only [hfound]
                rw [if_neg hEarly, if_neg hassert]
                simp only [getTypeIndex, hf, hko1, hid]
                cases hidv : idv with
                | some k =>
                  cases hko2 : jmGet ko.id k with
                  | some t2 => exact (hmiss k t2 hidv hko2).elim
                  | none => simp [hko2]
                | none => simp
              cases hid : coerceId rd.id with
              | some k =>
                cases hko2 : jmGet ko.id k with
                | some t2 =>
                  have heq : resolveData cfg rd sg s = (.ok (some t2), s) := by
                    unfold resolveData
                    simp only [hcl]
                    simp only [hfound]
                    rw [if_neg hEarly, if_neg hassert]
                    simp only [getTypeIndex, hf, hko1, hid, hko2]
                  rw [heq]
                  refine ⟨h, ?_⟩
                  intro t ht
                  simp only [RRes.ok.injEq, Option.some.injEq] at ht
                  subst ht
                  exact (wfc_koid_get h hf hko2).1
                | none =>
                  rw [hcommon (some k) hid
                    (by intro k' t2 hk' hg; rw [Option.some.injEq] at hk'; subst hk';
                        rw [hko2] at hg; exact absurd hg (by simp))]
                  by_cases hgen : (cfg.generate rd s.uuidCtr).1 ≠ l
                  · rw [if_pos hgen]
                    exact ⟨h, by intro t ht; exact absurd ht (by simp)⟩
                  · rw [if_neg hgen]
                    exact wfc_mintOrFinish _ _ _ _ _ _ h
                      (fun u hu => absurd hu (by simp))
              | none =>
                rw [hcommon none hid (by intro k' t2 hk' _; exact absurd hk' (by simp))]
                by_cases hgen : (cfg.generate rd s.uuidCtr).1 ≠ l
                · rw [if_pos hgen]
                  exact ⟨h, by intro t ht; exact absurd ht (by simp)⟩
                · rw [if_neg hgen]
                  exact wfc_mintOrFinish _ _ _ _ _ _ h
                    (fun u hu => absurd hu (by simp))
          | none =>
            have hwf1 : WFC { s with types :=
                s.types ++ [(normalizeModelName (jstr rd.type), emptyKeyOptions)] } :=
              wfc_addIndex _ h
            have heq : resolveData cfg rd sg s =
                (if (cfg.generate rd s.uuidCtr).1 ≠ l then
                  (RRes.err lidChangeMsg,
                    setCtr { s with types :=
                      s.types ++ [(normalizeModelName (jstr rd.type), emptyKeyOptions)] }
                      (cfg.generate rd s.uuidCtr).2)
                else
                  mintOrFinish (normalizeModelName (jstr rd.type)) (coerceId rd.id) none
                    (cfg.generate rd s.uuidCtr).1 sg
                    (setCtr { s with types :=
                      s.types ++ [(normalizeModelName (jstr rd.type), emptyKeyOptions)] }
                      (cfg.generate rd s.uuidCtr).2)) := by
              unfold resolveData
              simp only [hcl]
              simp only [hfound]
              rw [if_neg hEarly, if_neg hassert]
              simp only [getTypeIndex, hf]
              cases hid : coerceId rd.id with
              | some k => simp [emptyKeyOptions, jmGet]
              | none => simp [emptyKeyOptions, jmGet]
            rw [heq]
            by_cases hgen : (cfg.generate rd s.uuidCtr).1 ≠ l
            · rw [if_pos hgen]
              exact ⟨hwf1, by intro t ht; exact absurd ht (by simp)⟩
            · rw [if_neg hgen]
              exact wfc_mintOrFinish _ _ _ _ _ _ hwf1
                (fun u hu => absurd hu (by simp))
  | none =>
    by_cases hEarly : sg = false ∧ (truthyJ rd.type = false ∨ truthyJ rd.id = false)
    · have heq : resolveData cfg rd sg s = (.ok none, s) := by
        unfold resolveData
        simp only [hcl]
        rw [if_pos hEarly]
      rw [heq]
      exact ⟨h, by intro t ht; exact absurd ht (by simp)⟩
    · by_cases hassert : jvalIsNonEmptyString rd.type = false
      · have heq : resolveData cfg rd sg s = (.err typeAssertMsg, s) := by
          unfold resolveData
          simp only [hcl]
          rw [if_neg hEarly, if_pos hassert]
        rw [heq]
        exact ⟨h, by intro t ht; exact absurd ht (by simp)⟩
      · cases hf : tmFind s.types (normalizeModelName (jstr rd.type)) with
        | some ko =>
          have hid3gen : ∀ u, jmGet ko.lid (cfg.generate rd s.uuidCtr).1 = some u →
              jmGet s.lids ((tokF s u).lid) = some u ∧
              (tokF s u).type = normalizeModelName (jstr rd.type) := by
            intro u hu
            have hg := wfc_kolid_get h hf hu
            rw [(wfc_lids_get h hg.1).1]
            exact hg
          cases hid : coerceId rd.id with
          | some k =>
            cases hko2 : jmGet ko.id k with
            | some t2 =>
              have heq : resolveData cfg rd sg s = (.ok (some t2), s) := by
                unfold resolveData
                simp only [hcl]
                rw [if_neg hEarly, if_neg hassert]
                simp only [getTypeIndex, hf, hid, hko2]
              rw [heq]
              refine ⟨h, ?_⟩
              intro t ht
              simp only [RRes.ok.injEq, Option.some.injEq] at ht
              subst ht
              exact (wfc_koid_get h hf hko2).1
            | none =>
              have heq : resolveData cfg rd sg s =
                  mintOrFinish (normalizeModelName (jstr rd.type)) (some k)
                    (jmGet ko.lid (cfg.generate rd s.uuidCtr).1)
                    (cfg.generate rd s.uuidCtr).1 sg
                    (setCtr s (cfg.generate rd s.uuidCtr).2) := by
                unfold resolveData
                simp only [hcl]
                rw [if_neg hEarly, if_neg hassert]
                simp only [getTypeIndex, hf, hid, hko2]
              rw [heq]
              exact wfc_mintOrFinish _ _ _ _ _ _ h hid3gen
          | none =>
            have heq : resolveData cfg rd sg s =
                mintOrFinish (normalizeModelName (jstr rd.type)) none
                  (jmGet ko.lid (cfg.generate rd s.uuidCtr).1)
                  (cfg.generate rd s.uuidCtr).1 sg
                  (setCtr s (cfg.generate rd s.uuidCtr).2) := by
              unfold resolveData
              simp only [hcl]
              rw [if_neg hEarly, if_neg hassert]
              simp only [getTypeIndex, hf, hid]
            rw [heq]
            exact wfc_mintOrFinish _ _ _ _ _ _ h hid3gen
        | none =>
          have hwf1 : WFC { s with types :=
              s.types ++ [(normalizeModelName (jstr rd.type), emptyKeyOptions)] } :=
            wfc_addIndex _ h
          have heq : resolveData cfg rd sg s =
              mintOrFinish (normalizeModelName (jstr rd.type)) (coerceId rd.id)
                (jmGet emptyKeyOptions.lid (cfg.generate rd s.uuidCtr).1)
                (cfg.generate rd s.uuidCtr).1 sg
                (setCtr { s with types :=
                  s.types ++ [(normalizeModelName (jstr rd.type), emptyKeyOptions)] }
                  (cfg.generate rd s.uuidCtr).2) := by
            unfold resolveData
            simp only [hcl]
            rw [if_neg hEarly, if_neg hassert]
            simp only [getTypeIndex, hf]
            cases hid : coerceId rd.id with
            | some k => simp [emptyKeyOptions, jmGet]
            | none => simp [emptyKeyOptions, jmGet]
          rw [heq]
          exact wfc_mintOrFinish _ _ _ _ _ _ hwf1
            (fun u hu => absurd hu (by simp [emptyKeyOptions, jmGet] at hu ⊢))

theorem forget_eq_body (cfg : CacheConfig) (r : ResourceRef) (s : CacheState) :
    forgetRecordIdentifier cfg r s =
      match getRecordIdentifier cfg r true s with
      | (.err e, s1) => (.err e, s1)
      | (.ok none, s1) => (.err "unreachable", s1)
      | (.ok (some t), s1) => (.ok (), forgetBodyState s1 t (unmTarget r)) := by
  unfold forgetRecordIdentifier forgetBodyState unmTarget
  cases hres : getRecordIdentifier cfg r true s with
  | mk r1 s1 =>
    cases r1 with
    | err e => rfl
    | ok o =>
      cases o with
      | none => rfl
      | some t =>
        cases r with
        | token t0 => rfl
        | bare d => rfl

@[simp] theorem getTypeIndex_snd_fields (s : CacheState) (ty : String) :
    (getTypeIndex s ty).2.fields = s.fields := by
  unfold getTypeIndex
  cases tmFind s.types ty <;> rfl

@[simp] theorem getTypeIndex_snd_lids (s : CacheState) (ty : String) :
    (getTypeIndex s ty).2.lids = s.lids := by
  unfold getTypeIndex
  cases tmFind s.types ty <;> rfl

@[simp] theorem getTypeIndex_snd_nextTid (s : CacheState) (ty : String) :
    (getTypeIndex s ty).2.nextTid = s.nextTid := by
  unfold getTypeIndex
  cases tmFind s.types ty <;> rfl

@[simp] theorem getTypeIndex_snd_uuidCtr (s : CacheState) (ty : String) :
    (getTypeIndex s ty).2.uuidCtr = s.uuidCtr := by
  unfold getTypeIndex
  cases tmFind s.types ty <;> rfl

@[simp] theorem getTypeIndex_snd_events (s : CacheState) (ty : String) :
    (getTypeIndex s ty).2.events = s.events := by
  unfold getTypeIndex
  cases tmFind s.types ty <;> rfl

@[simp] theorem getTypeIndex_tokF (s : CacheState) (ty : String) (u : Nat) :
    tokF (getTypeIndex s ty).2 u = tokF s u := by
  unfold tokF
  rw [getTypeIndex_snd_fields]

@[simp] theorem getTypeIndex_fieldsHas (s : CacheState) (ty : String) (u : Nat) :
    fieldsHas (getTypeIndex s ty).2 u = fieldsHas s u := by
  unfold fieldsHas
  rw [getTypeIndex_snd_fields]

theorem forgetBodyState_lids (s : CacheState) (t : Nat) (unm : Option Nat) :
    (forgetBodyState s t unm).lids = jmDel s.lids (tokF s t).lid := by
  unfold forgetBodyState
  simp only [getTypeIndex_tokF]
  cases hid : (tokF s t).id <;> cases unm <;> simp [hid]

theorem forgetBodyState_tokF (s : CacheState) (t : Nat) (unm : Option Nat) (u : Nat) :
    (tokF (forgetBodyState s t unm) u).lid = (tokF s u).lid ∧
    (tokF (forgetBodyState s t unm) u).type = (tokF s u).type ∧
    (tokF (forgetBodyState s t unm) u).id = (tokF s u).id := by
  unfold forgetBodyState
  simp only [getTypeIndex_tokF]
  cases hid : (tokF s t).id with
  | none =>
    cases unm with
    | none => simp [hid]
    | some t0 =>
      simp only [hid]
      by_cases hfh : fieldsHas s t0 = true
      · by_cases hu : u = t0
        · subst hu
          rw [tokF_logEv, tokF_setFieldsF_self]
          · simp
          · simpa using hfh
        · rw [tokF_logEv, tokF_setFieldsF_ne _ _ _ _ hu]
          simp
      · by_cases hu : u = t0
        · subst hu
          rw [tokF_logEv, tokF_setFieldsF_nohas]
          · simp
          · simpa using (eq_false_of_ne_true hfh)
        · rw [tokF_logEv, tokF_setFieldsF_ne _ _ _ _ hu]
          simp
  | some k =>
    cases unm with
    | none => simp [hid]
    | some t0 =>
      simp only [hid]
      by_cases hfh : fieldsHas s t0 = true
      · by_cases hu : u = t0
        · subst hu
          rw [tokF_logEv, tokF_setFieldsF_self]
          · simp
          · simpa using hfh
        · rw [tokF_logEv, tokF_setFieldsF_ne _ _ _ _ hu]
          simp
      · by_cases hu : u = t0
        · subst hu
          rw [tokF_logEv, tokF_setFieldsF_nohas]
          · simp
          · simpa using (eq_false_of_ne_true hfh)
        · rw [tokF_logEv, tokF_setFieldsF_ne _ _ _ _ hu]
          simp

theorem forgetBodyState_nextTid (s : CacheState) (t : Nat) (unm : Option Nat) :
    (forgetBodyState s t unm).nextTid = s.nextTid := by
  unfold forgetBodyState
  simp only [getTypeIndex_tokF]
  cases hid : (tokF s t).id <;> cases unm <;> simp [hid]

theorem mem_fieldsMap_fst (m : List (Nat × TokenFields))
    (F : Nat × TokenFields → Nat × TokenFields)
    (hF : ∀ q, (F q).1 = q.1) (p : Nat × TokenFields)
    (h : p ∈ m.map F) : ∃ q ∈ m, p.1 = q.1 := by
  rw [List.mem_map] at h
  obtain ⟨q, hq, hpq⟩ := h
  exact ⟨q, hq, by rw [← hpq, hF]⟩

theorem forgetBodyState_fields_fst (s : CacheState) (t : Nat) (unm : Option Nat)
    (p : Nat × TokenFields) (hp : p ∈ (forgetBodyState s t unm).fields) :
    ∃ q ∈ s.fields, p.1 = q.1 := by
  unfold forgetBodyState at hp
  simp only [getTypeIndex_tokF] at hp
  cases hid : (tokF s t).id with
  | none =>
    cases unm with
    | none =>
      simp only [hid, logEv_fields, modKo_fields, delLids_fields,
        getTypeIndex_snd_fields] at hp
      exact ⟨p, hp, rfl⟩
    | some t0 =>
      simp only [hid, logEv_fields, setFieldsF, modKo_fields, delLids_fields,
        getTypeIndex_snd_fields] at hp
      exact mem_fieldsMap_fst _ _
        (fun q => by by_cases hk : q.1 = t0 <;> simp [hk]) _ hp
  | some k =>
    cases unm with
    | none =>
      simp only [hid, logEv_fields, modKo_fields, delLids_fields,
        getTypeIndex_snd_fields] at hp
      exact ⟨p, hp, rfl⟩
    | some t0 =>
      simp only [hid, logEv_fields, setFieldsF, modKo_fields, delLids_fields,
        getTypeIndex_snd_fields] at hp
      exact mem_fieldsMap_fst _ _
        (fun q => by by_cases hk : q.1 = t0 <;> simp [hk]) _ hp

theorem mem_getTypeIndex_types (s : CacheState) (ty : String)
    (q : String × KeyOptions) (h : q ∈ (getTypeIndex s ty).2.types) :
    q ∈ s.types ∨ q = (ty, emptyKeyOptions) := by
  cases hf : tmFind s.types ty with
  | some ko =>
    rw [getTypeIndex_found _ _ _ hf] at h
    exact Or.inl h
  | none =>
    rw [getTypeIndex_missing _ _ hf] at h
    exact mem_append_sing _ _ _ h

theorem forgetBodyState_types (s : CacheState) (t : Nat) (unm : Option Nat) :
    (forgetBodyState s t unm).types =
      tmMod (getTypeIndex s (tokF s t).type).2.types (tokF s t).type
        (fun ko =>
          { lid := jmDel ko.lid (tokF s t).lid,
            id := match (tokF s t).id with
              | some k => jmDel ko.id k
              | none => ko.id,
            allIdentifiers := match jsIndexOf ko.allIdentifiers t with
              | some i => ko.allIdentifiers.eraseIdx i
              | none => ko.allIdentifiers.dropLast }) := by
  unfold forgetBodyState
  simp only [getTypeIndex_tokF]
  cases hid : (tokF s t).id with
  | none =>
    cases unm <;>
    · simp only [hid, logEv_types, setFieldsF_types, modKo_types, delLids_types,
        tokF_modKo, tokF_delLids, getTypeIndex_tokF]
      rw [tmMod_tmMod]
  | some k =>
    cases unm <;>
    · simp only [hid, logEv_types, setFieldsF_types, modKo_types, delLids_types,
        tokF_modKo, tokF_delLids, getTypeIndex_tokF]
      rw [tmMod_tmMod, tmMod_tmMod]

theorem optOk_congr {o : Option Nat} {P Q : Nat → Prop}
    (h : optOk o P) (himp : ∀ t, P t → Q t) : optOk o Q := by
  cases o with
  | none => trivial
  | some t => exact himp t h

/-- The core invariant transfers to any state with the same tables, bound and
token records (regardless of the event log, the uuid counter and the order
of the backing store). -/
theorem wfc_transfer {s s' : CacheState}
    (hl : s'.lids = s.lids) (ht : s'.types = s.types)
    (hn : s'.nextTid = s.nextTid)
    (htok : ∀ u, tokF s' u = tokF s u)
    (hf : ∀ p ∈ s'.fields, ∃ q ∈ s.fields, p.1 = q.1)
    (h : WFC s) : WFC s' := by
  refine ⟨?_, ?_, ?_⟩
  · intro p hp
    rw [hl] at hp
    exact optOk_congr (h.1 p hp) (fun u hu => by rw [htok u, hn]; exact hu)
  · intro q hq
    rw [ht] at hq
    obtain ⟨hlq, hiq⟩ := h.2.1 q hq
    constructor
    · intro p hp
      exact optOk_congr (hlq p hp) (fun u hu => by rw [hl, htok u]; exact hu)
    · intro p hp
      exact optOk_congr (hiq p hp) (fun u hu => by rw [hl, htok u]; exact hu)
  · intro p hp
    rw [hn]
    obtain ⟨q0, hq0, he⟩ := hf p hp
    rw [he]
    exact h.2.2 q0 hq0

/-- Forgetting a live token preserves the core invariant: the deleted global
entry, the deleted primary entry and (when the token carried an id) the
deleted secondary entry are exactly the entries whose obligations involved
the token. -/
theorem wfc_forgetBodyState {s : CacheState} {t : Nat} (unm : Option Nat)
    (h : WFC s) (hlive : jmGet s.lids ((tokF s t).lid) = some t) :
    WFC (forgetBodyState s t unm) := by
  have hLids := forgetBodyState_lids s t unm
  have hTid := forgetBodyState_nextTid s t unm
  have hTok := forgetBodyState_tokF s t unm
  have hTypes := forgetBodyState_types s t unm
  cases hid : (tokF s t).id with
  | some k =>
    simp only [hid] at hTypes
    refine ⟨?_, ?_, ?_⟩
    · intro p hp
      rw [hLids] at hp
      obtain ⟨hp0, hpk⟩ := mem_jmDel _ _ _ hp
      have hob := h.1 p hp0
      cases hv : p.2 with
      | none => trivial
      | some u =>
        rw [hv] at hob
        obtain ⟨h1, h2⟩ := hob
        refine ⟨?_, ?_⟩
        · rw [(hTok u).1]
          exact h1
        · rw [hTid]
          exact h2
    · intro q hq
      rw [hTypes] at hq
      rcases mem_tmMod _ _ _ q hq with ⟨ko, hmem, rfl⟩ | ⟨hmem, hne⟩
      · rcases mem_getTypeIndex_types s _ _ hmem with hmem0 | hemp
        · obtain ⟨hl, hi⟩ := h.2.1 _ hmem0
          constructor
          · intro p hp
            obtain ⟨hp0, hpk⟩ := mem_jmDel _ _ _ hp
            have hob := hl p hp0
            cases hv : p.2 with
            | none => trivial
            | some u =>
              rw [hv] at hob
              obtain ⟨h1, h2⟩ := hob
              refine ⟨?_, ?_⟩
              · rw [hLids, jmGet_del_ne _ _ _ hpk]
                exact h1
              · rw [(hTok u).2.1]
                exact h2
          · intro p hp
            obtain ⟨hp0, hpk⟩ := mem_jmDel _ _ _ hp
            have hob := hi p hp0
            cases hv : p.2 with
            | none => trivial
            | some u =>
              rw [hv] at hob
              obtain ⟨h1, h2, h3⟩ := hob
              have hune : (tokF s u).lid ≠ (tokF s t).lid := by
                intro he
                rw [he, hlive] at h1
                have hut : u = t := (Option.some.inj h1).symm
                rw [hut, hid] at h3
                exact hpk (Option.some.inj h3).symm
              refine ⟨?_, ?_, ?_⟩
              · rw [(hTok u).1, hLids, jmGet_del_ne _ _ _ hune]
                exact h1
              · rw [(hTok u).2.1]
                exact h2
              · rw [(hTok u).2.2]
                exact h3
        · rw [Prod.mk.injEq] at hemp
          obtain ⟨-, rfl⟩ := hemp
          refine ⟨?_, ?_⟩ <;> intro p hp <;>
            simp [emptyKeyOptions, jmDel] at hp
      · rcases mem_getTypeIndex_types s _ q hmem with hmem0 | hemp
        · obtain ⟨hl, hi⟩ := h.2.1 q hmem0
          constructor
          · intro p hp
            have hob := hl p hp
            cases hv : p.2 with
            | none => trivial
            | some u =>
              rw [hv] at hob
              obtain ⟨h1, h2⟩ := hob
              have hpne : p.1 ≠ (tokF s t).lid := by
                intro he
                rw [he, hlive] at h1
                have hut : u = t := (Option.some.inj h1).symm
                rw [hut] at h2
                exact hne h2.symm
              refine ⟨?_, ?_⟩
              · rw [hLids, jmGet_del_ne _ _ _ hpne]
                exact h1
              · rw [(hTok u).2.1]
                exact h2
          · intro p hp
            have hob := hi p hp
            cases hv : p.2 with
            | none => trivial
            | some u =>
              rw [hv] at hob
              obtain ⟨h1, h2, h3⟩ := hob
              have hune : (tokF s u).lid ≠ (tokF s t).lid := by
                intro he
                rw [he, hlive] at h1
                have hut : u = t := (Option.some.inj h1).symm
                rw [hut] at h2
                exact hne h2.symm
              refine ⟨?_, ?_, ?_⟩
              · rw [(hTok u).1, hLids, jmGet_del_ne _ _ _ hune]
                exact h1
              · rw [(hTok u).2.1]
                exact h2
              · rw [(hTok u).2.2]
                exact h3
        · rw [hemp] at hne
          exact absurd rfl hne
    · intro p hp
      rw [hTid]
      obtain ⟨q0, hq0, he⟩ := forgetBodyState_fields_fst s t unm p hp
      rw [he]
      exact h.2.2 q0 hq0
  | none =>
    simp only [hid] at hTypes
    refine ⟨?_, ?_, ?_⟩
    · intro p hp
      rw [hLids] at hp
      obtain ⟨hp0, hpk⟩ := mem_jmDel _ _ _ hp
      have hob := h.1 p hp0
      cases hv : p.2 with
      | none => trivial
      | some u =>
        rw [hv] at hob
        obtain ⟨h1, h2⟩ := hob
        refine ⟨?_, ?_⟩
        · rw [(hTok u).1]
          exact h1
        · rw [hTid]
          exact h2
    · intro q hq
      rw [hTypes] at hq
      rcases mem_tmMod _ _ _ q hq with ⟨ko, hmem, rfl⟩ | ⟨hmem, hne⟩
      · rcases mem_getTypeIndex_types s _ _ hmem with hmem0 | hemp
        · obtain ⟨hl, hi⟩ := h.2.1 _ hmem0
          constructor
          · intro p hp
            obtain ⟨hp0, hpk⟩ := mem_jmDel _ _ _ hp
            have hob := hl p hp0
            cases hv : p.2 with
            | none => trivial
            | some u =>
              rw [hv] at hob
              obtain ⟨h1, h2⟩ := hob
              refine ⟨?_, ?_⟩
              · rw [hLids, jmGet_del_ne _ _ _ hpk]
                exact h1
              · rw [(hTok u).2.1]
                exact h2
          · intro p hp
            have hob := hi p hp
            cases hv : p.2 with
            | none => trivial
            | some u =>
              rw [hv] at hob
              obtain ⟨h1, h2, h3⟩ := hob
              have hune : (tokF s u).lid ≠ (tokF s t).lid := by
                intro he
                rw [he, hlive] at h1
                have hut : u = t := (Option.some.inj h1).symm
                rw [hut, hid] at h3
                simp at h3
              refine ⟨?_, ?_, ?_⟩
              · rw [(hTok u).1, hLids, jmGet_del_ne _ _ _ hune]
                exact h1
              · rw [(hTok u).2.1]
                exact h2
              · rw [(hTok u).2.2]
                exact h3
        · rw [Prod.mk.injEq] at hemp
          obtain ⟨-, rfl⟩ := hemp
          refine ⟨?_, ?_⟩ <;> intro p hp <;>
            simp [emptyKeyOptions, jmDel] at hp
      · rcases mem_getTypeIndex_types s _ q hmem with hmem0 | hemp
        · obtain ⟨hl, hi⟩ := h.2.1 q hmem0
          constructor
          · intro p hp
            have hob := hl p hp
            cases hv : p.2 with
            | none => trivial
            | some u =>
              rw [hv] at hob
              obtain ⟨h1, h2⟩ := hob
              have hpne : p.1 ≠ (tokF s t).lid := by
                intro he
                rw [he, hlive] at h1
                have hut : u = t := (Option.some.inj h1).symm
                rw [hut] at h2
                exact hne h2.symm
              refine ⟨?_, ?_⟩
              · rw [hLids, jmGet_del_ne _ _ _ hpne]
                exact h1
              · rw [(hTok u).2.1]
                exact h2
          · intro p hp
            have hob := hi p hp
            cases hv : p.2 with
            | none => trivial
            | some u =>
              rw [hv] at hob
              obtain ⟨h1, h2, h3⟩ := hob
              have hune : (tokF s u).lid ≠ (tokF s t).lid := by
                intro he
                rw [he, hlive] at h1
                have hut : u = t := (Option.some.inj h1).symm
                rw [hut] at h2
                exact hne h2.symm
              refine ⟨?_, ?_, ?_⟩
              · rw [(hTok u).1, hLids, jmGet_del_ne _ _ _ hune]
                exact h1
              · rw [(hTok u).2.1]
                exact h2
              · rw [(hTok u).2.2]
                exact h3
        · rw [hemp] at hne
          exact absurd rfl hne
    · intro p hp
      rw [hTid]
      obtain ⟨q0, hq0, he⟩ := forgetBodyState_fields_fst s t unm p hp
      rw [he]
      exact h.2.2 q0 hq0

/-- The public resolution entry point preserves the core invariant and only
returns live tokens. -/
theorem getRecordIdentifier_wfc (cfg : CacheConfig) (r : ResourceRef)
    (sg : Bool) (s : CacheState) (h : WFC s) :
    WFC (getRecordIdentifier cfg r sg s).2 ∧
    ∀ t, (getRecordIdentifier cfg r sg s).1 = .ok (some t) →
      jmGet (getRecordIdentifier cfg r sg s).2.lids
        ((tokF (getRecordIdentifier cfg r sg s).2 t).lid) = some t := by
  cases r with
  | bare d => exact resolveData_wfc cfg d sg s h
  | token t0 =>
    by_cases hmk : (tokF s t0).marked = true
    · by_cases hlv : jmGet s.lids (tokF s t0).lid = some t0
      · have heq : getRecordIdentifier cfg (.token t0) sg s = (.ok (some t0), s) := by
          simp only [getRecordIdentifier]
          rw [if_pos hmk, if_pos hlv]
        rw [heq]
        refine ⟨h, ?_⟩
        intro t ht
        simp only [RRes.ok.injEq, Option.some.injEq] at ht
        subst ht
        exact hlv
      · have heq : getRecordIdentifier cfg (.token t0) sg s = (.err belongsMsg, s) := by
          simp only [getRecordIdentifier]
          rw [if_pos hmk, if_neg hlv]
        rw [heq]
        exact ⟨h, by intro t ht; exact absurd ht (by simp)⟩
    · have heq : getRecordIdentifier cfg (.token t0) sg s =
          resolveData cfg (dataOfToken s t0) sg s := by
        simp only [getRecordIdentifier]
        rw [if_neg hmk]
      rw [heq]
      exact resolveData_wfc cfg _ sg s h

/-- `forgetRecordIdentifier` preserves the core invariant. -/
theorem forget_wfc (cfg : CacheConfig) (r : ResourceRef) (s : CacheState)
    (h : WFC s) : WFC (forgetRecordIdentifier cfg r s).2 := by
  obtain ⟨hw, hl⟩ := getRecordIdentifier_wfc cfg r true s h
  rw [forget_eq_body]
  cases hres : getRecordIdentifier cfg r true s with
  | mk r1 s1 =>
    rw [hres] at hw hl
    cases r1 with
    | err e => exact hw
    | ok o =>
      cases o with
      | none => exact hw
      | some t => exact wfc_forgetBodyState (unmTarget r) hw (hl t rfl)

/-- `detectMerge` either leaves the state alone or just materialises a type
index. -/
theorem detectMerge_state (i : Nat) (d : ResourceData) (n : Option String)
    (s : CacheState) :
    (detectMerge i d n s).2 = s ∨
      ∃ ty', (detectMerge i d n s).2 = (getTypeIndex s ty').2 := by
  simp only [detectMerge]
  repeat' split
  all_goals first
    | exact Or.inl rfl
    | exact Or.inr ⟨_, rfl⟩

theorem detectMerge_lids (i : Nat) (d : ResourceData) (n : Option String)
    (s : CacheState) : (detectMerge i d n s).2.lids = s.lids := by
  rcases detectMerge_state i d n s with he | ⟨ty', he⟩ <;> rw [he]
  exact getTypeIndex_snd_lids s ty'

theorem detectMerge_nextTid (i : Nat) (d : ResourceData) (n : Option String)
    (s : CacheState) : (detectMerge i d n s).2.nextTid = s.nextTid := by
  rcases detectMerge_state i d n s with he | ⟨ty', he⟩ <;> rw [he]
  exact getTypeIndex_snd_nextTid s ty'

theorem detectMerge_tokF (i : Nat) (d : ResourceData) (n : Option String)
    (s : CacheState) (u : Nat) : tokF (detectMerge i d n s).2 u = tokF s u := by
  rcases detectMerge_state i d n s with he | ⟨ty', he⟩ <;> rw [he]
  exact getTypeIndex_tokF s ty' u

theorem detectMerge_wfc (i : Nat) (d : ResourceData) (n : Option String)
    (s : CacheState) (h : WFC s) : WFC (detectMerge i d n s).2 := by
  rcases detectMerge_state i d n s with he | ⟨ty', he⟩ <;> rw [he]
  · exact h
  · exact wfc_getTypeIndex ty' h

theorem perform_lids (i : Nat) (d : ResourceData) (s : CacheState) :
    (performRecordIdentifierUpdate i d s).2.lids = s.lids := by
  simp only [performRecordIdentifierUpdate]
  repeat' split
  all_goals simp

theorem perform_types (i : Nat) (d : ResourceData) (s : CacheState) :
    (performRecordIdentifierUpdate i d s).2.types = s.types := by
  simp only [performRecordIdentifierUpdate]
  repeat' split
  all_goals simp

theorem perform_nextTid (i : Nat) (d : ResourceData) (s : CacheState) :
    (performRecordIdentifierUpdate i d s).2.nextTid = s.nextTid := by
  simp only [performRecordIdentifierUpdate]
  repeat' split
  all_goals simp

theorem perform_fields_fst (i : Nat) (d : ResourceData) (s : CacheState)
    (p : Nat × TokenFields)
    (hp : p ∈ (performRecordIdentifierUpdate i d s).2.fields) :
    ∃ q ∈ s.fields, p.1 = q.1 := by
  simp only [performRecordIdentifierUpdate] at hp
  repeat' split at hp
  all_goals first
    | exact ⟨p, hp, rfl⟩
    | (simp only [setFieldsF, logEv_fields] at hp
       exact mem_fieldsMap_fst _ _
         (fun q => by by_cases hk : q.1 = i <;> simp [hk]) _ hp)

/-- How `performRecordIdentifierUpdate` touches the token records: either it
leaves every backing record unchanged, or it succeeded with a usable
incoming id and rewrote exactly the id member of the live updated token. -/
theorem perform_cases (i : Nat) (d : ResourceData) (s : CacheState) :
    (∀ u, tokF (performRecordIdentifierUpdate i d s).2 u = tokF s u) ∨
    ((performRecordIdentifierUpdate i d s).1 = .ok () ∧ d.id ≠ .undef ∧
      (∀ u, u ≠ i → tokF (performRecordIdentifierUpdate i d s).2 u = tokF s u) ∧
      tokF (performRecordIdentifierUpdate i d s).2 i =
        { tokF s i with id := coerceId d.id }) := by
  by_cases h1 : d.lid ≠ .undef ∧ coerceId d.lid ≠ some (tokF s i).lid
  · have heq : performRecordIdentifierUpdate i d s = (.err lidUpdateMsg, s) := by
      simp only [performRecordIdentifierUpdate]
      rw [if_pos h1]
    rw [heq]
    exact Or.inl (fun u => rfl)
  · by_cases h3 : truthyJ d.type = true ∧
        normalizeModelName (jstr d.type) ≠ (tokF s i).type
    · have heq : performRecordIdentifierUpdate i d s =
          (.err typeUpdateMsg,
            if d.id ≠ .undef ∧ (tokF s i).id ≠ none ∧
                (tokF s i).id ≠ coerceId d.id
            then logEv s (.warnIdChange i) else s) := by
        simp only [performRecordIdentifierUpdate]
        rw [if_neg h1, if_pos h3]
      rw [heq]
      refine Or.inl (fun u => ?_)
      split <;> simp
    · by_cases h4 : d.id ≠ .undef
      · have heq : performRecordIdentifierUpdate i d s =
            (.ok (), setFieldsF
              (logEv (if d.id ≠ .undef ∧ (tokF s i).id ≠ none ∧
                  (tokF s i).id ≠ coerceId d.id
                then logEv s (.warnIdChange i) else s) (.updateHook i)) i
              (fun g => { g with id := coerceId d.id })) := by
          simp only [performRecordIdentifierUpdate]
          rw [if_neg h1, if_neg h3, if_pos h4]
        rw [heq]
        by_cases hfh : fieldsHas s i = true
        · refine Or.inr ⟨rfl, h4, fun u hu => ?_, ?_⟩
          · rw [tokF_setFieldsF_ne _ _ _ _ hu]
            split <;> simp
          · rw [tokF_setFieldsF_self]
            · split <;> simp
            · split <;> simpa [fieldsHas] using hfh
        · refine Or.inl (fun u => ?_)
          by_cases hu : u = i
          · subst hu
            rw [tokF_setFieldsF_nohas]
            · split <;> simp
            · split <;> simpa [fieldsHas] using (eq_false_of_ne_true hfh)
          · rw [tokF_setFieldsF_ne _ _ _ _ hu]
            split <;> simp
      · have heq : performRecordIdentifierUpdate i d s =
            (.ok (), logEv (if d.id ≠ .undef ∧ (tokF s i).id ≠ none ∧
                (tokF s i).id ≠ coerceId d.id
              then logEv s (.warnIdChange i) else s) (.updateHook i)) := by
          simp only [performRecordIdentifierUpdate]
          rw [if_neg h1, if_neg h3, if_neg h4]
        rw [heq]
        refine Or.inl (fun u => ?_)
        split <;> simp

theorem tokenFields_set_id_eq (f : TokenFields) (v : Option String)
    (h : f.id = v) : ({ f with id := v } : TokenFields) = f := by
  cases f
  subst h
  rfl

theorem jmDel_append (m n : JMap) (k : String) :
    jmDel (m ++ n) k = jmDel m k ++ jmDel n k := by
  induction m with
  | nil => rfl
  | cons p m ih =>
    by_cases hp : p.1 = k <;> simp [jmDel, hp, ih]

theorem jmDel_comm (m : JMap) (a b : String) :
    jmDel (jmDel m a) b = jmDel (jmDel m b) a := by
  induction m with
  | nil => rfl
  | cons p m ih =>
    by_cases hpa : p.1 = a <;> by_cases hpb : p.1 = b
    · have hab : a = b := by rw [← hpa, hpb]
      subst hab
      simp [jmDel, hpa, ih]
    · have hab : ¬(a = b) := by rw [← hpa]; exact hpb
      simp [jmDel, hpa, hpb, hab, ih]
    · have hba : ¬(b = a) := by rw [← hpb]; exact hpa
      simp [jmDel, hpa, hpb, hba, ih]
    · simp [jmDel, hpa, hpb, ih]

theorem jmSet_del_comm (m : JMap) (k : String) (v : Option Nat) (k0 : String)
    (h : k ≠ k0) :
    jmDel (jmSet m k v) k0 = jmSet (jmDel m k0) k v := by
  unfold jmSet
  rw [jmDel_append, jmDel_comm m k k0]
  congr 1
  simp [jmDel, h]

/-- Writing the fresh secondary entry and deleting the stale one commute
(the two keys differ), so the re-indexing step of `updateRecordIdentifier`
can be read as delete-then-insert. -/
theorem reindex_swap (s : CacheState) (ty k k0 : String) (i : Nat)
    (h : k ≠ k0) :
    modKo (modKo s ty (fun ko => { ko with id := jmSet ko.id k (some i) })) ty
        (fun ko => { ko with id := jmDel ko.id k0 }) =
      modKo (modKo s ty (fun ko => { ko with id := jmDel ko.id k0 })) ty
        (fun ko => { ko with id := jmSet ko.id k (some i) }) := by
  have ht : tmMod (tmMod s.types ty
        (fun ko => { ko with id := jmSet ko.id k (some i) })) ty
        (fun ko => { ko with id := jmDel ko.id k0 }) =
      tmMod (tmMod s.types ty
        (fun ko => { ko with id := jmDel ko.id k0 })) ty
        (fun ko => { ko with id := jmSet ko.id k (some i) }) := by
    rw [tmMod_tmMod, tmMod_tmMod]
    congr 1
    funext ko
    simp [jmSet_del_comm _ _ _ _ h]
  simp only [modKo]
  rw [ht]

/-- A state differing from a well-formed one only in the id member of a
token that previously carried no id still satisfies the core invariant (no
secondary entry can point at the token). -/
theorem wfc_idchange_from_none (sOld sNew : CacheState) (i : Nat)
    (h : WFC sOld)
    (hlids : sNew.lids = sOld.lids) (htypes : sNew.types = sOld.types)
    (hn : sNew.nextTid = sOld.nextTid)
    (hf : ∀ p ∈ sNew.fields, ∃ q ∈ sOld.fields, p.1 = q.1)
    (htok : ∀ u, u ≠ i → tokF sNew u = tokF sOld u)
    (hLid : (tokF sNew i).lid = (tokF sOld i).lid)
    (hTy : (tokF sNew i).type = (tokF sOld i).type)
    (hid0 : (tokF sOld i).id = none) :
    WFC sNew := by
  refine ⟨?_, ?_, ?_⟩
  · intro p hp
    rw [hlids] at hp
    refine optOk_congr (h.1 p hp) (fun u hu => ?_)
    rw [hn]
    by_cases hui : u = i
    · subst hui
      exact ⟨by rw [hLid]; exact hu.1, hu.2⟩
    · rw [htok u hui]
      exact hu
  · intro q hq
    rw [htypes] at hq
    obtain ⟨hl, hi⟩ := h.2.1 q hq
    constructor
    · intro p hp
      refine optOk_congr (hl p hp) (fun u hu => ?_)
      rw [hlids]
      by_cases hui : u = i
      · subst hui
        exact ⟨hu.1, by first | rfl | (rw [hTy]; exact hu.2)⟩
      · rw [htok u hui]
        exact hu
    · intro p hp
      refine optOk_congr (hi p hp) (fun u hu => ?_)
      by_cases hui : u = i
      · subst hui
        exfalso
        have h3 := hu.2.2
        rw [hid0] at h3
        exact absurd h3 (by simp)
      · rw [hlids, htok u hui]
        exact hu
  · intro p hp
    rw [hn]
    obtain ⟨q0, hq0, he⟩ := hf p hp
    rw [he]
    exact h.2.2 q0 hq0

/-- After a token's id member changed away from `some k0`, deleting the
stale secondary entry for `k0` from the token's type index restores the
core invariant. -/
theorem wfc_after_idchange (sOld sNew : CacheState) (i : Nat) (k0 : String)
    (h : WFC sOld)
    (hlids : sNew.lids = sOld.lids) (htypes : sNew.types = sOld.types)
    (hn : sNew.nextTid = sOld.nextTid)
    (hf : ∀ p ∈ sNew.fields, ∃ q ∈ sOld.fields, p.1 = q.1)
    (htok : ∀ u, u ≠ i → tokF sNew u = tokF sOld u)
    (hLid : (tokF sNew i).lid = (tokF sOld i).lid)
    (hTy : (tokF sNew i).type = (tokF sOld i).type)
    (hid0 : (tokF sOld i).id = some k0)
    (hlive : jmGet sOld.lids ((tokF sOld i).lid) = some i) :
    WFC (modKo (getTypeIndex sNew ((tokF sNew i).type)).2 ((tokF sNew i).type)
      (fun ko => { ko with id := jmDel ko.id k0 })) := by
  refine ⟨?_, ?_, ?_⟩
  · intro p hp
    simp only [modKo_lids, getTypeIndex_snd_lids, hlids] at hp
    refine optOk_congr (h.1 p hp) (fun u hu => ?_)
    simp only [tokF_modKo, getTypeIndex_tokF, modKo_nextTid,
      getTypeIndex_snd_nextTid, hn]
    by_cases hui : u = i
    · subst hui
      exact ⟨by rw [hLid]; exact hu.1, hu.2⟩
    · rw [htok u hui]
      exact hu
  · intro q hq
    simp only [modKo_types] at hq
    rcases mem_tmMod _ _ _ q hq with ⟨ko, hmem, rfl⟩ | ⟨hmem, hne⟩
    · rcases mem_getTypeIndex_types sNew _ _ hmem with hmem0 | hemp
      · rw [htypes] at hmem0
        obtain ⟨hl, hi⟩ := h.2.1 _ hmem0
        constructor
        · intro p hp
          refine optOk_congr (hl p hp) (fun u hu => ?_)
          simp only [modKo_lids, getTypeIndex_snd_lids, hlids, tokF_modKo,
            getTypeIndex_tokF]
          by_cases hui : u = i
          · subst hui
            exact ⟨hu.1, by first | rfl | (rw [hTy]; exact hu.2)⟩
          · rw [htok u hui]
            exact hu
        · intro p hp
          obtain ⟨hp0, hpk⟩ := mem_jmDel _ _ _ hp
          refine optOk_congr (hi p hp0) (fun u hu => ?_)
          simp only [modKo_lids, getTypeIndex_snd_lids, hlids, tokF_modKo,
            getTypeIndex_tokF]
          by_cases hui : u = i
          · subst hui
            exfalso
            have h3 := hu.2.2
            rw [hid0] at h3
            exact hpk (Option.some.inj h3).symm
          · rw [htok u hui]
            exact hu
      · rw [Prod.mk.injEq] at hemp
        obtain ⟨-, rfl⟩ := hemp
        refine ⟨?_, ?_⟩ <;> intro p hp <;>
          simp [emptyKeyOptions, jmDel] at hp
    · rcases mem_getTypeIndex_types sNew _ q hmem with hmem0 | hemp
      · rw [htypes] at hmem0
        obtain ⟨hl, hi⟩ := h.2.1 q hmem0
        constructor
        · intro p hp
          refine optOk_congr (hl p hp) (fun u hu => ?_)
          simp only [modKo_lids, getTypeIndex_snd_lids, hlids, tokF_modKo,
            getTypeIndex_tokF]
          by_cases hui : u = i
          · subst hui
            exact ⟨hu.1, by first | rfl | (rw [hTy]; exact hu.2)⟩
          · rw [htok u hui]
            exact hu
        · intro p hp
          refine optOk_congr (hi p hp) (fun u hu => ?_)
          simp only [modKo_lids, getTypeIndex_snd_lids, hlids, tokF_modKo,
            getTypeIndex_tokF]
          by_cases hui : u = i
          · subst hui
            exfalso
            have h2 := hu.2.1
            rw [← hTy] at h2
            exact hne h2.symm
          · rw [htok u hui]
            exact hu
      · rw [hemp] at hne
        exact absurd rfl hne
  · intro p hp
    simp only [modKo_fields, getTypeIndex_snd_fields] at hp
    simp only [modKo_nextTid, getTypeIndex_snd_nextTid, hn]
    obtain ⟨q0, hq0, he⟩ := hf p hp
    rw [he]
    exact h.2.2 q0 hq0


/-- `finishUpdate` preserves the core invariant when the incoming external
key is a usable (non-empty) string or wholly absent. -/
theorem finishUpdate_wfc (i : Nat) (d : ResourceData) (s : CacheState)
    (h : WFC s) (hlive : jmGet s.lids ((tokF s i).lid) = some i)
    (hok : truthyJ d.id = true ∨ d.id = .undef) :
    WFC (finishUpdate i d s).2 := by
  have hLids := perform_lids i d s
  have hTypes := perform_types i d s
  have hTid := perform_nextTid i d s
  have hcase := perform_cases i d s
  simp only [finishUpdate]
  split
  · rename_i e s1 hp
    rw [hp] at hLids hTypes hTid hcase
    have hF1 : ∀ p ∈ s1.fields, ∃ q ∈ s.fields, p.1 = q.1 := fun p hpm =>
      perform_fields_fst i d s p (by rw [hp]; exact hpm)
    rcases hcase with hAll | ⟨hok1, -⟩
    · exact wfc_transfer hLids hTypes hTid hAll hF1 h
    · exact absurd hok1 (by simp)
  · rename_i u0 s1 hp
    rw [hp] at hLids hTypes hTid hcase
    have hL1 : s1.lids = s.lids := hLids
    have hT1 : s1.types = s.types := hTypes
    have hN1 : s1.nextTid = s.nextTid := hTid
    have hF1 : ∀ p ∈ s1.fields, ∃ q ∈ s.fields, p.1 = q.1 := fun p hpm =>
      perform_fields_fst i d s p (by rw [hp]; exact hpm)
    split
    · rename_i k hni
      split
      · -- the id transitioned: re-index and delete any stale entry
        rename_i hchg
        rw [hni] at hchg
        rcases hcase with hAll | ⟨-, hne0, hOther, hSelf⟩
        · exfalso
          rw [hAll i] at hni
          exact hchg hni
        · have hSelf' : tokF s1 i = { tokF s i with id := coerceId d.id } :=
            hSelf
          have hOther' : ∀ u, u ≠ i → tokF s1 u = tokF s u := hOther
          have hLid1 : (tokF s1 i).lid = (tokF s i).lid := by rw [hSelf']
          have hTy1 : (tokF s1 i).type = (tokF s i).type := by rw [hSelf']
          cases hid0 : (tokF s i).id with
          | none =>
            show WFC (modKo (getTypeIndex s1 ((tokF s1 i).type)).2
              ((tokF s1 i).type)
              (fun ko => { ko with id := jmSet ko.id k (some i) }))
            have hW1 : WFC s1 :=
              wfc_idchange_from_none s s1 i h hL1 hT1 hN1 hF1 hOther'
                hLid1 hTy1 hid0
            have hlive2 : jmGet (getTypeIndex s1 ((tokF s1 i).type)).2.lids
                ((tokF (getTypeIndex s1 ((tokF s1 i).type)).2 i).lid) =
                some i := by
              rw [getTypeIndex_snd_lids, getTypeIndex_tokF, hL1, hLid1]
              exact hlive
            have hty2 : (tokF (getTypeIndex s1 ((tokF s1 i).type)).2 i).type =
                (tokF s1 i).type := by
              rw [getTypeIndex_tokF]
            have hw := wfc_writeIdEntry (wfc_getTypeIndex _ hW1) hlive2 hty2
            have hwe : writeIdEntry (getTypeIndex s1 ((tokF s1 i).type)).2
                ((tokF s1 i).type) i =
                modKo (getTypeIndex s1 ((tokF s1 i).type)).2 ((tokF s1 i).type)
                  (fun ko => { ko with id := jmSet ko.id k (some i) }) := by
              unfold writeIdEntry
              rw [getTypeIndex_tokF, hni]
            rw [hwe] at hw
            exact hw
          | some k0 =>
            show WFC (modKo (modKo (getTypeIndex s1 ((tokF s1 i).type)).2
              ((tokF s1 i).type)
              (fun ko => { ko with id := jmSet ko.id k (some i) }))
              ((tokF s1 i).type)
              (fun ko => { ko with id := jmDel ko.id k0 }))
            have hkne : k ≠ k0 := fun he => hchg (by rw [hid0, he])
            rw [reindex_swap _ _ _ _ _ hkne]
            have hWdel := wfc_after_idchange s s1 i k0 h hL1 hT1 hN1 hF1
              hOther' hLid1 hTy1 hid0 hlive
            have hlive3 : jmGet (modKo (getTypeIndex s1 ((tokF s1 i).type)).2
                ((tokF s1 i).type)
                (fun ko => { ko with id := jmDel ko.id k0 })).lids
                ((tokF (modKo (getTypeIndex s1 ((tokF s1 i).type)).2
                  ((tokF s1 i).type)
                  (fun ko => { ko with id := jmDel ko.id k0 })) i).lid) =
                some i := by
              rw [modKo_lids, getTypeIndex_snd_lids, tokF_modKo,
                getTypeIndex_tokF, hL1, hLid1]
              exact hlive
            have hty3 : (tokF (modKo (getTypeIndex s1 ((tokF s1 i).type)).2
                ((tokF s1 i).type)
                (fun ko => { ko with id := jmDel ko.id k0 })) i).type =
                (tokF s1 i).type := by
              rw [tokF_modKo, getTypeIndex_tokF]
            have hw := wfc_writeIdEntry hWdel hlive3 hty3
            have hwe : writeIdEntry (modKo (getTypeIndex s1 ((tokF s1 i).type)).2
                ((tokF s1 i).type)
                (fun ko => { ko with id := jmDel ko.id k0 }))
                ((tokF s1 i).type) i =
                modKo (modKo (getTypeIndex s1 ((tokF s1 i).type)).2
                  ((tokF s1 i).type)
                  (fun ko => { ko with id := jmDel ko.id k0 }))
                  ((tokF s1 i).type)
                  (fun ko => { ko with id := jmSet ko.id k (some i) }) := by
              unfold writeIdEntry
              rw [tokF_modKo, getTypeIndex_tokF, hni]
            rw [hwe] at hw
            exact hw
      · -- the id did not transition
        rename_i hchg
        rw [hni] at hchg
        have hid0 : (tokF s i).id = some k := not_not.mp hchg
        rcases hcase with hAll | ⟨-, hne0, hOther, hSelf⟩
        · exact wfc_transfer hL1 hT1 hN1 hAll hF1 h
        · have hSelf' : tokF s1 i = { tokF s i with id := coerceId d.id } :=
            hSelf
          have hOther' : ∀ u, u ≠ i → tokF s1 u = tokF s u := hOther
          have hcd : coerceId d.id = some k := by
            have hni' := hni
            rw [hSelf'] at hni'
            simpa using hni'
          have hfix : tokF s1 i = tokF s i := by
            rw [hSelf']
            exact tokenFields_set_id_eq _ _ (hid0.trans hcd.symm)
          refine wfc_transfer hL1 hT1 hN1 (fun u => ?_) hF1 h
          by_cases hui : u = i
          · subst hui
            exact hfix
          · exact hOther' u hui
    · rename_i hni
      rcases hcase with hAll | ⟨-, hne0, hOther, hSelf⟩
      · exact wfc_transfer hL1 hT1 hN1 hAll hF1 h
      · exfalso
        have hSelf' : tokF s1 i = { tokF s i with id := coerceId d.id } :=
          hSelf
        rw [hSelf'] at hni
        simp at hni
        rcases hok with htr | hud
        · cases hdv : d.id with
          | undef =>
            rw [hdv] at htr
            simp [truthyJ] at htr
          | nullv =>
            rw [hdv] at htr
            simp [truthyJ] at htr
          | str v =>
            rw [hdv] at htr hni
            simp [truthyJ] at htr
            simp [coerceId, htr] at hni
        · exact hne0 hud

theorem getTypeIndex_alloc (s : CacheState) (f : TokenFields) (ty : String) :
    (getTypeIndex (allocToken s f).2 ty).2 =
      (allocToken (getTypeIndex s ty).2 f).2 := by
  simp only [getTypeIndex, allocToken]
  cases htf : tmFind s.types ty <;> rfl

/-- The fresh-mint step as `createIdentifierForNewRecord` performs it
(allocation before the lazy type-index creation) preserves the core
invariant. -/
theorem wfc_mint_generic (s0 : CacheState) (ty L : String) (f : TokenFields)
    (h : WFC s0) (hfresh : jmGet s0.lids L = none)
    (hfL : f.lid = L) (hfT : f.type = ty) :
    WFC (modKo (setLids (getTypeIndex (allocToken s0 f).2 ty).2 L
        (some (allocToken s0 f).1)) ty
      (fun ko => { ko with
          lid := jmSet ko.lid L (some (allocToken s0 f).1),
          allIdentifiers := ko.allIdentifiers ++ [(allocToken s0 f).1] })) := by
  have he : modKo (setLids (getTypeIndex (allocToken s0 f).2 ty).2 L
        (some (allocToken s0 f).1)) ty
      (fun ko => { ko with
          lid := jmSet ko.lid L (some (allocToken s0 f).1),
          allIdentifiers := ko.allIdentifiers ++ [(allocToken s0 f).1] }) =
      mintState (getTypeIndex s0 ty).2 f L ty := by
    rw [getTypeIndex_alloc]
    rw [show (allocToken s0 f).1 = s0.nextTid from rfl]
    unfold mintState allocToken
    rw [getTypeIndex_snd_nextTid]
  rw [he]
  refine wfc_insert f (wfc_getTypeIndex ty h) ?_ hfL hfT
  rw [getTypeIndex_snd_lids]
  exact hfresh

/-- `createIdentifierForNewRecord` preserves the core invariant. -/
theorem create_wfc (cfg : CacheConfig) (ty : String) (idv : JVal)
    (s : CacheState) (h : WFC s) :
    WFC (createIdentifierForNewRecord cfg ty idv s).2 := by
  simp only [createIdentifierForNewRecord]
  split <;> split <;>
    first
      | exact wfc_getTypeIndex ty (wfc_alloc _ h)
      | (rename_i hk
         refine wfc_mint_generic
           (setCtr s (cfg.generate ⟨.str ty, idv, .undef⟩ s.uuidCtr).2) ty
           (cfg.generate ⟨.str ty, idv, .undef⟩ s.uuidCtr).1 _ h ?_ ?_ ?_
         · have h0 := eq_false_of_ne_true hk
           rw [getTypeIndex_snd_lids] at h0
           exact jmGet_none_of_hasKey_false _ _ h0
         · rfl
         · rfl)

/-- Writing an `undefined` value into a secondary table (as the default
merge path does) preserves the core invariant: the entry carries no
token. -/
theorem wfc_setIdUndefined (s : CacheState) (ty k : String) (h : WFC s) :
    WFC (modKo s ty (fun ko => { ko with id := jmSet ko.id k none })) := by
  refine ⟨?_, ?_, ?_⟩
  · intro p hp
    simp only [modKo_lids] at hp
    refine optOk_congr (h.1 p hp) (fun u hu => ?_)
    simp only [tokF_modKo, modKo_nextTid]
    exact hu
  · intro q hq
    simp only [modKo_types] at hq
    rcases mem_tmMod _ _ _ q hq with ⟨ko, hmem, rfl⟩ | ⟨hmem, hne⟩
    · obtain ⟨hl, hi⟩ := h.2.1 _ hmem
      constructor
      · intro p hp
        refine optOk_congr (hl p hp) (fun u hu => ?_)
        simp only [modKo_lids, tokF_modKo]
        exact hu
      · intro p hp
        rcases mem_jmSet _ _ _ _ hp with rfl | ⟨hp0, hpk⟩
        · trivial
        · refine optOk_congr (hi p hp0) (fun u hu => ?_)
          simp only [modKo_lids, tokF_modKo]
          exact hu
    · obtain ⟨hl, hi⟩ := h.2.1 q hmem
      constructor
      · intro p hp
        refine optOk_congr (hl p hp) (fun u hu => ?_)
        simp only [modKo_lids, tokF_modKo]
        exact hu
      · intro p hp
        refine optOk_congr (hi p hp) (fun u hu => ?_)
        simp only [modKo_lids, tokF_modKo]
        exact hu
  · intro p hp
    simp only [modKo_fields] at hp
    simp only [modKo_nextTid]
    exact h.2.2 p hp

/-- With the default (never-merge) configuration, `_mergeRecordIdentifiers`
preserves the core invariant and always throws. -/
theorem merge_wfc (cfg : CacheConfig) (hm : cfg.merge = defaultMergeMethod)
    (tyA : String) (i e0 : Nat) (d : ResourceData) (n : Option String)
    (s : CacheState) (h : WFC s) :
    WFC (mergeRecordIdentifiers cfg tyA i e0 d n s).2 ∧
    ∀ x, (mergeRecordIdentifiers cfg tyA i e0 d n s).1 ≠ .ok x := by
  simp only [mergeRecordIdentifiers, hm, defaultMergeMethod]
  rw [if_neg (show ¬((none : Option Nat) = some i) from by simp)]
  have hf : WFC (forgetRecordIdentifier cfg (.token i)
      (logEv s (.mergeHook i e0))).2 :=
    forget_wfc cfg _ _ h
  split
  · rename_i e1 s1 hres
    rw [hres] at hf
    exact ⟨hf, fun x hx => by simp at hx⟩
  · rename_i u1 s1 hres
    rw [hres] at hf
    exact ⟨wfc_setIdUndefined _ _ _
        (wfc_getTypeIndex _ (wfc_setIdUndefined _ _ _ hf)),
      fun x hx => by simp at hx⟩

/-- With the default configuration, `updateRecordIdentifier` preserves the
core invariant provided the incoming external key is usable or absent. -/
theorem update_wfc (cfg : CacheConfig) (hm : cfg.merge = defaultMergeMethod)
    (r : ResourceRef) (d : ResourceData) (s : CacheState) (h : WFC s)
    (hok : truthyJ d.id = true ∨ d.id = .undef) :
    WFC (updateRecordIdentifier cfg r d s).2 := by
  obtain ⟨hg, hgl⟩ := getRecordIdentifier_wfc cfg r true s h
  simp only [updateRecordIdentifier]
  split
  · rename_i e s1 hres
    rw [hres] at hg
    exact hg
  · rename_i u1 s1 hres
    rw [hres] at hg
    exact hg
  · rename_i identifier s1 hres
    rw [hres] at hg hgl
    have hW1 : WFC s1 := hg
    have hlive1 : jmGet s1.lids ((tokF s1 identifier).lid) = some identifier :=
      hgl identifier rfl
    have hW2 : WFC (detectMerge identifier d (coerceId d.id) s1).2 :=
      detectMerge_wfc _ _ _ _ hW1
    have hlive2 : jmGet (detectMerge identifier d (coerceId d.id) s1).2.lids
        ((tokF (detectMerge identifier d (coerceId d.id) s1).2 identifier).lid) =
        some identifier := by
      rw [detectMerge_lids, detectMerge_tokF]
      exact hlive1
    split
    · rename_i existing hem
      obtain ⟨hWm, hNm⟩ := merge_wfc cfg hm
        ((tokF (detectMerge identifier d (coerceId d.id) s1).2 identifier).type)
        identifier existing d (coerceId d.id) _
        (wfc_getTypeIndex _ hW2)
      split
      · rename_i e3 s3 hres3
        rw [hres3] at hWm
        exact hWm
      · rename_i kt data3 s3 hres3
        rw [hres3] at hNm
        exact absurd rfl (hNm (kt, data3))
    · rename_i hem
      split
      · rename_i hdiff
        obtain ⟨hg2, hgl2⟩ := getRecordIdentifier_wfc cfg
          (.bare { d with lid := .undef }) true
          (detectMerge identifier d (coerceId d.id) s1).2 hW2
        split
        · rename_i e3 s3 hres2
          rw [hres2] at hg2
          exact hg2
        · rename_i u3 s3 hres2
          rw [hres2] at hg2
          exact hg2
        · rename_i existing s3 hres2
          rw [hres2] at hg2
          obtain ⟨hWm, hNm⟩ := merge_wfc cfg hm
            ((tokF s3 identifier).type) identifier existing d (coerceId d.id) _
            (wfc_getTypeIndex _ hg2)
          split
          · rename_i e4 s4 hres4
            rw [hres4] at hWm
            exact hWm
          · rename_i kt data4 s4 hres4
            rw [hres4] at hNm
            exact absurd rfl (hNm (kt, data4))
      · rename_i hdiff
        exact finishUpdate_wfc identifier d _ hW2 hlive2 hok

theorem wfc_initCache : WFC initCache := by
  refine ⟨?_, ?_, ?_⟩ <;> intro p hp <;> simp [initCache] at hp

/-- Every public operation preserves the core invariant, for a default-merge
configuration and updates whose external key is usable or absent. -/
theorem applyOp_wfc (cfg : CacheConfig) (hm : cfg.merge = defaultMergeMethod)
    (s : CacheState) (op : CacheOp) (h : WFC s) (hop : updateIdOk op) :
    WFC (applyOp cfg s op) := by
  cases op with
  | getOrCreate r => exact (getRecordIdentifier_wfc cfg r true s h).1
  | peek r => exact (getRecordIdentifier_wfc cfg r false s h).1
  | createForNew ty idv => exact create_wfc cfg ty idv s h
  | update r d => exact update_wfc cfg hm r d s h hop
  | forget r => exact forget_wfc cfg r s h

theorem runOps_wfc (cfg : CacheConfig) (hm : cfg.merge = defaultMergeMethod)
    (ops : List CacheOp) :
    ∀ s : CacheState, (∀ op ∈ ops, updateIdOk op) → WFC s →
      WFC (runOps cfg ops s) := by
  induction ops with
  | nil =>
    intro s hops h
    exact h
  | cons op ops ih =>
    intro s hops h
    exact ih (applyOp cfg s op)
      (fun o ho => hops o (List.mem_cons_of_mem _ ho))
      (applyOp_wfc cfg hm s op h (hops op (List.mem_cons_self _ _)))

/-- Claim C10, amended: under the never-merge default configuration, for
every sequence of the five public operations in which each update carries a
usable (non-empty) external key or none at all, the agreement invariant
holds in the resulting cache state: every entry `L ↦ t` of any type index's
local-key table has a matching global entry mapping `L` to the same token,
and that token's type is the index's type. -/
theorem c10_amended_invariant (cfg : CacheConfig) (ops : List CacheOp)
    (hm : cfg.merge = defaultMergeMethod)
    (hops : ∀ op ∈ ops, updateIdOk op) :
    ∀ q ∈ (runOps cfg ops initCache).types, ∀ p ∈ q.2.lid,
      optOk p.2 (fun t =>
        jmGet (runOps cfg ops initCache).lids p.1 = some t ∧
        (tokF (runOps cfg ops initCache) t).type = q.1) := by
  have hW : WFC (runOps cfg ops initCache) :=
    runOps_wfc cfg hm ops initCache hops wfc_initCache
  exact fun q hq => (hW.2.1 q hq).1

/-- Witness for the amended C10 invariant at a concrete operation
sequence exercising all five operations. -/
theorem c10_amended_invariant_witness :
    defaultConfig.merge = defaultMergeMethod ∧
    (∀ op ∈ c10ops, updateIdOk op) ∧
    (∀ q ∈ (runOps defaultConfig c10ops initCache).types, ∀ p ∈ q.2.lid,
      optOk p.2 (fun t =>
        jmGet (runOps defaultConfig c10ops initCache).lids p.1 = some t ∧
        (tokF (runOps defaultConfig c10ops initCache) t).type = q.1)) :=
  ⟨rfl, by decide, c10_amended_invariant defaultConfig c10ops rfl (by decide)⟩
